import Mathlib

/-!
# CineTrack — verification of the season-tracking collection logic

Shallow embedding of the CineTrack client logic:
* the `TVShowSeason` data model (`types.ts`),
* import/merge of an external list (`App.tsx` `importSharedData`,
  `importData` of the file-upload variants),
* collection lifecycle operations (`handleSaveShow`, `handleDelete`,
  `ShowModal.handleSave`),
* the filter/sort view (`filteredShows`),
* the statistics aggregate (`Stats` `totalHours`),
* the share-link encoder/decoder (`handleShare` / `loadInitialData`) with
  JSON stringify/parse, percent-encoding, UTF-8 and base64 modelled in full.

JavaScript strings are modelled as lists of Unicode scalar values
(`JStr := List Nat`); JSON numbers are modelled as exact decimals
`JNum` (an integer mantissa with a decimal exponent), whose numeric
value is the rational `m / 10 ^ e`.
-/

namespace Cinetrack

/-- A JavaScript string, as its list of Unicode scalar values. -/
abbrev JStr := List Nat

/-- A JSON-representable number: value `m / 10 ^ e`, a finite decimal.
This models the numbers the app stores (ratings such as `4.8`,
timestamps, counts), which survive `JSON.stringify`/`JSON.parse`
exactly. -/
structure JNum where
  m : Int
  e : Nat
deriving DecidableEq, Repr

/-- Numeric value of a `JNum`. -/
def JNum.val (n : JNum) : ℚ := (n.m : ℚ) / ((10 : ℚ) ^ n.e)

/-- `ShowStatus` enum from `types.ts`. -/
inductive ShowStatus where
  | completed
  | watching
  | recommended
  | onHold
  | dropped
deriving DecidableEq, Repr

/-- The string value of each `ShowStatus` member (`'Completed'`, …). -/
def ShowStatus.str : ShowStatus → JStr
  | .completed => [67, 111, 109, 112, 108, 101, 116, 101, 100]
  | .watching => [87, 97, 116, 99, 104, 105, 110, 103]
  | .recommended => [82, 101, 99, 111, 109, 109, 101, 110, 100, 101, 100]
  | .onHold => [79, 110, 32, 72, 111, 108, 100]
  | .dropped => [68, 114, 111, 112, 112, 101, 100]

/-- `AggregateRatings` from `types.ts`: all fields optional. -/
structure AggregateRatings where
  imdb : Option JNum
  metacritic : Option JNum
  myanimelist : Option JNum
  rottenTomatoes : Option JNum
deriving DecidableEq, Repr

/-- `ShowURLs` from `types.ts`: all fields optional. -/
structure ShowURLs where
  imdb : Option JStr
  metacritic : Option JStr
  myanimelist : Option JStr
  rottenTomatoes : Option JStr
  trailer : Option JStr
deriving DecidableEq, Repr

/-- `GroundingLink` from `types.ts`. -/
structure GroundingLink where
  title : JStr
  uri : JStr
deriving DecidableEq, Repr

/-- `TVShowSeason` from `types.ts`. -/
structure TVShowSeason where
  id : JStr
  title : JStr
  seasonNumber : JNum
  network : JStr
  genres : List JStr
  userRating : JNum
  aggregateRatings : AggregateRatings
  urls : ShowURLs
  status : ShowStatus
  review : JStr
  synopsis : JStr
  startDate : Option JStr
  endDate : Option JStr
  isOngoing : Bool
  createdAt : JNum
  episodeCount : Option JNum
  avgEpisodeLength : Option JNum
  groundingLinks : Option (List GroundingLink)
deriving DecidableEq, Repr

/-! ## Import / merge (`App.tsx` `importSharedData`, variants' `importData`) -/

/-- Merge of `importSharedData` (`App.tsx` lines 168-181): collect the
identifiers of the shared data into a set, drop from the previous
collection every record whose identifier is in that set, and prepend
the whole shared list. -/
def importSharedData (sharedData prev : List TVShowSeason) : List TVShowSeason :=
  let existingIds := sharedData.map (fun s => s.id)
  let filteredPrev := prev.filter (fun p => decide (p.id ∉ existingIds))
  sharedData ++ filteredPrev

/-- Merge of `importData` (file-upload variants, `part_003` line 240 and
`part_002` line 467): `[...content, ...prev.filter(p => !content.find(c
=> c.id === p.id))]`. -/
def importData (content prev : List TVShowSeason) : List TVShowSeason :=
  content ++ prev.filter (fun p => (content.find? (fun c => decide (c.id = p.id))).isNone)

/-! ## Collection lifecycle (`App.tsx` `handleSaveShow`, `handleDelete`) -/

/-- `handleSaveShow`, create branch: the new show is prepended. -/
def handleSaveShowCreate (newShow : TVShowSeason) (prev : List TVShowSeason) :
    List TVShowSeason :=
  newShow :: prev

/-- `handleSaveShow`, edit branch: every record whose identifier equals
the edited show's identifier is replaced by the new record. -/
def handleSaveShowEdit (editingId : JStr) (newShow : TVShowSeason)
    (prev : List TVShowSeason) : List TVShowSeason :=
  prev.map (fun s => if s.id = editingId then newShow else s)

/-- `handleDelete`: all records with the given identifier are removed. -/
def handleDelete (i : JStr) (prev : List TVShowSeason) : List TVShowSeason :=
  prev.filter (fun s => decide (¬ s.id = i))

/-! ## The entry form (`ShowModal.tsx` `handleSave`) -/

/-- The modal's `formData` (a `Partial<TVShowSeason>`). -/
structure FormData where
  id : Option JStr
  title : Option JStr
  seasonNumber : Option JNum
  network : Option JStr
  genres : Option (List JStr)
  userRating : Option JNum
  aggregateRatings : Option AggregateRatings
  urls : Option ShowURLs
  status : Option ShowStatus
  review : Option JStr
  synopsis : Option JStr
  startDate : Option JStr
  endDate : Option JStr
  isOngoing : Option Bool
  createdAt : Option JNum
  episodeCount : Option JNum
  avgEpisodeLength : Option JNum
  groundingLinks : Option (List GroundingLink)
deriving DecidableEq, Repr

/-- JavaScript `x || d` where `x` is a possibly-undefined string:
`undefined` and the empty string are falsy. -/
def jsOrStr : Option JStr → JStr → JStr
  | none, d => d
  | some v, d => if v = [] then d else v

/-- JavaScript `x || d` where `x` is a possibly-undefined number:
`undefined` and `0` are falsy. A `JNum` is numerically zero exactly when
its mantissa is zero (`JNum.val_eq_zero_iff`). -/
def jsOrNum : Option JNum → JNum → JNum
  | none, d => d
  | some v, d => if v.m = 0 then d else v

/-- JavaScript `x || d` for a possibly-undefined value with no falsy
inhabitants (objects, arrays, enum strings). -/
def jsOrD {α : Type} (x : Option α) (d : α) : α := x.getD d

/-- `ShowModal.handleSave` (lines 69-92): guarded on a non-empty title,
it assembles `finalShow` from the form data, minting a fresh identifier
when the form has none and defaulting each missing field. -/
def handleSave (formData : FormData) (mintedId : JStr) (now : JNum) :
    Option TVShowSeason :=
  if jsOrStr formData.title [] = [] then none
  else some
      { id := jsOrStr formData.id mintedId
        title := jsOrStr formData.title []
        seasonNumber := jsOrNum formData.seasonNumber ⟨1, 0⟩
        network := jsOrStr formData.network [85, 110, 107, 110, 111, 119, 110]
        genres := jsOrD formData.genres []
        userRating := jsOrNum formData.userRating ⟨0, 0⟩
        aggregateRatings := jsOrD formData.aggregateRatings ⟨none, none, none, none⟩
        urls := jsOrD formData.urls ⟨none, none, none, none, none⟩
        status := jsOrD formData.status .watching
        review := jsOrStr formData.review []
        synopsis := jsOrStr formData.synopsis []
        startDate := formData.startDate
        endDate := formData.endDate
        isOngoing := jsOrD formData.isOngoing false
        createdAt := jsOrNum formData.createdAt now
        episodeCount := some (jsOrNum formData.episodeCount ⟨0, 0⟩)
        avgEpisodeLength := some (jsOrNum formData.avgEpisodeLength ⟨0, 0⟩)
        groundingLinks := some (jsOrD formData.groundingLinks []) }

/-- Collections reachable from the empty collection through the public
operations: save from the entry form (create or edit), delete, and
import/merge of an arbitrary external sequence. -/
inductive Reachable : List TVShowSeason → Prop where
  | init : Reachable []
  | formCreate {c} (formData : FormData) (mintedId : JStr) (now : JNum)
      (sh : TVShowSeason) (h : handleSave formData mintedId now = some sh) :
      Reachable c → Reachable (handleSaveShowCreate sh c)
  | formEdit {c} (formData : FormData) (mintedId : JStr) (now : JNum)
      (editingId : JStr) (sh : TVShowSeason)
      (h : handleSave formData mintedId now = some sh) :
      Reachable c → Reachable (handleSaveShowEdit editingId sh c)
  | del {c} (i : JStr) : Reachable c → Reachable (handleDelete i c)
  | imp {c} (inc : List TVShowSeason) :
      Reachable c → Reachable (importSharedData inc c)

/-! ## Filter / sort view (`App.tsx` `filteredShows`) -/

/-- `String.prototype.toLowerCase` restricted to the simple ASCII case
mapping (sufficient for the properties below; the claims never depend
on exotic case folding). -/
def toLowerCase (s : JStr) : JStr :=
  s.map (fun c => if 65 ≤ c ∧ c ≤ 90 then c + 32 else c)

/-- `String.prototype.includes`: substring containment. -/
def includes (s sub : JStr) : Bool := decide (sub <:+: s)

/-- `String.prototype.startsWith`. -/
def startsWith (s p : JStr) : Bool := decide (p <+: s)

/-- Digits of a natural number, most significant first. -/
def natDigits (n : Nat) : List Nat :=
  (Nat.toDigits 10 n).map (fun c => c.toNat)

/-- Left-pad a digit string with `'0'` up to width `w`. -/
def padZero (w : Nat) (ds : List Nat) : List Nat :=
  List.replicate (w - ds.length) 48 ++ ds

/-- Civil date (year, month, day) from days since the Unix epoch
(Howard Hinnant's algorithm, as the JS `Date` implements it). -/
def civilFromDays (z0 : Int) : Int × Int × Int :=
  let z := z0 + 719468
  let era := Int.fdiv z 146097
  let doe := z - era * 146097
  let yoe := Int.fdiv (doe - Int.fdiv doe 1460 + Int.fdiv doe 36524 - Int.fdiv doe 146096) 365
  let y := yoe + era * 400
  let doy := doe - (365 * yoe + Int.fdiv yoe 4 - Int.fdiv yoe 100)
  let mp := Int.fdiv (5 * doy + 2) 153
  let d := doy - Int.fdiv (153 * mp + 2) 5 + 1
  let mth := mp + (if mp < 10 then 3 else -9)
  ((if mth ≤ 2 then y + 1 else y), mth, d)

/-- `new Date(ms).toISOString().split('T')[0]`: the ISO calendar date of
a millisecond timestamp. -/
def isoDateOf (t : JNum) : JStr :=
  let days := Int.floor (t.val / 86400000)
  let c := civilFromDays days
  padZero 4 (natDigits c.1.toNat) ++ [45] ++ padZero 2 (natDigits c.2.1.toNat)
    ++ [45] ++ padZero 2 (natDigits c.2.2.toNat)

/-- `s.endDate || s.startDate || new Date(s.createdAt).toISOString().split('T')[0]`. -/
def showDate (s : TVShowSeason) : JStr :=
  jsOrStr s.endDate (jsOrStr s.startDate (isoDateOf s.createdAt))

/-- The literal `'All'`. -/
def litAll : JStr := [65, 108, 108]

/-- The predicate of the `shows.filter` call inside `filteredShows`
(`App.tsx` lines 205-216), with `q` the already-lowercased query. -/
def filterPred (q selectedYear : JStr) (s : TVShowSeason) : Bool :=
  let matchesSearch := includes (toLowerCase s.title) q
    || includes (toLowerCase s.network) q
    || includes (toLowerCase s.status.str) q
    || s.genres.any (fun g => includes (toLowerCase g) q)
  if ¬ matchesSearch then false
  else if selectedYear = litAll then true
  else startsWith (showDate s) selectedYear

/-- The filter stage of `filteredShows`: lowercase the query, then keep
the records matching search and year, in collection order (the sort is
applied to this list afterwards). -/
def filteredShows (shows : List TVShowSeason) (searchQuery selectedYear : JStr) :
    List TVShowSeason :=
  let q := toLowerCase searchQuery
  shows.filter (filterPred q selectedYear)

/-- The `rating-desc` comparator of the sort switch:
`(a, b) => b.userRating - a.userRating`. -/
def cmpRatingDesc (a b : TVShowSeason) : ℚ := b.userRating.val - a.userRating.val

/-- An array sorted with a comparator keeps `a` before `b` when
`cmp a b ≤ 0`; sorting `filteredShows` with the `rating-desc`
comparator. -/
def sortRatingDesc (l : List TVShowSeason) : List TVShowSeason :=
  l.mergeSort (fun a b => decide (cmpRatingDesc a b ≤ 0))

/-! ## Statistics (`Stats` `totalHours`, `part_002` lines 39-48) -/

/-- `s.episodeCount || 0` as a numeric value. -/
def numOrZero (x : Option JNum) : ℚ :=
  match x with
  | none => 0
  | some v => v.val

/-- `totalHours`: a reduce over the shows, adding
`(s.episodeCount || 0) * (s.avgEpisodeLength || 0)` for every show whose
status is `Completed` or `Watching`, with the final accumulator divided
by 60. -/
def totalHours (shows : List TVShowSeason) : ℚ :=
  (shows.foldl
    (fun acc s =>
      if s.status = .completed ∨ s.status = .watching then
        acc + numOrZero s.episodeCount * numOrZero s.avgEpisodeLength
      else acc)
    0) / 60

/-! ## JSON values and `JSON.stringify`

`JSON.parse` returns plain JavaScript values; they are modelled by the
`Json` type. Numbers are finite decimals `(m, e)` with value
`m / 10 ^ e`, which is exactly what the app's values (ratings,
timestamps, counts) are. -/

inductive Json where
  | null
  | bool (b : Bool)
  | num (m : Int) (e : Nat)
  | str (s : JStr)
  | arr (elems : List Json)
  | obj (fields : List (JStr × Json))

/-- The decimal digits of a natural number, least significant first
(fuel-based so that it reduces in the kernel). -/
def digitsRev : Nat → Nat → List Nat
  | 0, _ => []
  | _ + 1, 0 => []
  | fuel + 1, n + 1 => ((n + 1) % 10) :: digitsRev fuel ((n + 1) / 10)

/-- The decimal digit characters of a natural number, most significant
first (`"0"` for zero). -/
def natDigitChars (n : Nat) : JStr :=
  if n = 0 then [48] else ((digitsRev n n).reverse).map (fun d => 48 + d)

/-- Decimal rendering of a JSON number `(m, e)`: the digits of `|m|`
padded to at least `e + 1` digits, a decimal point before the last `e`
digits when `e > 0`, and a leading minus sign for negative `m`. -/
def stringifyNum (m : Int) (e : Nat) : JStr :=
  let ds := padZero (e + 1) (natDigitChars m.natAbs)
  let sign : JStr := if m < 0 then [45] else []
  if e = 0 then sign ++ ds
  else sign ++ ds.take (ds.length - e) ++ [46] ++ ds.drop (ds.length - e)

/-- Lowercase hexadecimal digit character. -/
def hexLower (d : Nat) : Nat := if d < 10 then 48 + d else 87 + d

/-- `JSON.stringify`'s escaping of one string character: `\"`, `\\`,
the shorthand control escapes, `\u00xx` for other control characters,
and every other character literally. -/
def escapeChar (c : Nat) : JStr :=
  if c = 34 then [92, 34]
  else if c = 92 then [92, 92]
  else if c = 8 then [92, 98]
  else if c = 9 then [92, 116]
  else if c = 10 then [92, 110]
  else if c = 12 then [92, 102]
  else if c = 13 then [92, 114]
  else if c < 32 then [92, 117, 48, 48, hexLower (c / 16), hexLower (c % 16)]
  else [c]

/-- A JSON string literal: quote, escaped characters, quote. -/
def stringifyStr (s : JStr) : JStr := 34 :: (s.map escapeChar).flatten ++ [34]

mutual

/-- `JSON.stringify` (no indentation), producing the JSON text of a
value. -/
def stringifyJson : Json → JStr
  | .null => [110, 117, 108, 108]
  | .bool true => [116, 114, 117, 101]
  | .bool false => [102, 97, 108, 115, 101]
  | .num m e => stringifyNum m e
  | .str s => stringifyStr s
  | .arr l => 91 :: stringifyElems l ++ [93]
  | .obj l => 123 :: stringifyFields l ++ [125]

/-- Comma-separated array elements. -/
def stringifyElems : List Json → JStr
  | [] => []
  | [v] => stringifyJson v
  | v :: w :: rest => stringifyJson v ++ 44 :: stringifyElems (w :: rest)

/-- Comma-separated `"key":value` object members. -/
def stringifyFields : List (JStr × Json) → JStr
  | [] => []
  | [(k, v)] => stringifyStr k ++ 58 :: stringifyJson v
  | (k, v) :: w :: rest => stringifyStr k ++ 58 :: stringifyJson v ++ 44 :: stringifyFields (w :: rest)

end

/-! ## `JSON.parse`

A recursive-descent parser over the JSON grammar, modelling
`JSON.parse`: whitespace skipping, the three literals, numbers
(sign, integer and fraction digits), strings with the standard escapes,
arrays and objects. The value parsers take a fuel argument (decremented
on every nested call) so that the recursion is structural and reduces in
the kernel; `parseJson` supplies fuel exceeding any value's nesting
depth. -/

/-- JSON whitespace: space, tab, line feed, carriage return. -/
def isWs (c : Nat) : Bool := c = 32 || c = 9 || c = 10 || c = 13

/-- Skip leading whitespace. -/
def skipWs : JStr → JStr
  | [] => []
  | c :: rest => if isWs c then skipWs rest else c :: rest

/-- Hexadecimal digit value (both cases). -/
def hexVal (c : Nat) : Option Nat :=
  if 48 ≤ c ∧ c ≤ 57 then some (c - 48)
  else if 65 ≤ c ∧ c ≤ 70 then some (c - 55)
  else if 97 ≤ c ∧ c ≤ 102 then some (c - 87)
  else none

/-- Decimal digit test. -/
def isDigit (c : Nat) : Bool := 48 ≤ c && c ≤ 57

/-- Consume a run of decimal digits, returning their values (most
significant first) and the rest of the input. -/
def parseDigits : JStr → List Nat × JStr
  | [] => ([], [])
  | c :: rest =>
    if isDigit c then
      let (ds, r) := parseDigits rest
      ((c - 48) :: ds, r)
    else ([], c :: rest)

/-- The numeric value of a digit-value list, most significant first. -/
def digitsVal (ds : List Nat) : Nat := ds.foldl (fun a d => 10 * a + d) 0

/-- Consume an expected literal suffix of a keyword. -/
def expectPfx : JStr → JStr → Option JStr
  | [], s => some s
  | _ :: _, [] => none
  | p :: ps, c :: cs => if c = p then expectPfx ps cs else none

/-- Parse a JSON number after an optional leading minus has been
handled: integer digits, then an optional fraction. Returns the
mantissa (of the absolute value) and the count of fraction digits. -/
def parseNumBody (s : JStr) : Option ((Nat × Nat) × JStr) :=
  match parseDigits s with
  | ([], _) => none
  | (i :: is, r) =>
    match r with
    | [] => some ((digitsVal (i :: is), 0), [])
    | c :: r1 =>
      if c = 46 then
        match parseDigits r1 with
        | ([], _) => none
        | (f :: fs, r3) =>
          some ((digitsVal ((i :: is) ++ f :: fs), (f :: fs).length), r3)
      else some ((digitsVal (i :: is), 0), c :: r1)

/-- Parse a JSON number with its optional sign. -/
def parseNum : JStr → Option ((Int × Nat) × JStr)
  | [] => none
  | c :: rest =>
    if c = 45 then (parseNumBody rest).map (fun p => ((-(p.1.1 : Int), p.1.2), p.2))
    else (parseNumBody (c :: rest)).map (fun p => (((p.1.1 : Int), p.1.2), p.2))

/-- Parse the body of a string literal (after the opening quote) up to
the closing quote, decoding the escapes. -/
def parseStringBody : JStr → Option (JStr × JStr)
  | [] => none
  | c :: rest =>
    if c = 34 then some ([], rest)
    else if c = 92 then
      match rest with
      | [] => none
      | e :: rest1 =>
        if e = 34 then (parseStringBody rest1).map (fun p => (34 :: p.1, p.2))
        else if e = 92 then (parseStringBody rest1).map (fun p => (92 :: p.1, p.2))
        else if e = 47 then (parseStringBody rest1).map (fun p => (47 :: p.1, p.2))
        else if e = 98 then (parseStringBody rest1).map (fun p => (8 :: p.1, p.2))
        else if e = 102 then (parseStringBody rest1).map (fun p => (12 :: p.1, p.2))
        else if e = 110 then (parseStringBody rest1).map (fun p => (10 :: p.1, p.2))
        else if e = 114 then (parseStringBody rest1).map (fun p => (13 :: p.1, p.2))
        else if e = 116 then (parseStringBody rest1).map (fun p => (9 :: p.1, p.2))
        else if e = 117 then
          match rest1 with
          | h1 :: h2 :: h3 :: h4 :: rest4 =>
            match hexVal h1, hexVal h2, hexVal h3, hexVal h4 with
            | some v1, some v2, some v3, some v4 =>
              (parseStringBody rest4).map
                (fun p => ((v1 * 4096 + v2 * 256 + v3 * 16 + v4) :: p.1, p.2))
            | _, _, _, _ => none
          | _ => none
        else none
    else if c < 32 then none
    else (parseStringBody rest).map (fun p => (c :: p.1, p.2))

mutual

/-- Parse one JSON value (fuelled). -/
def parseValue : Nat → JStr → Option (Json × JStr)
  | 0, _ => none
  | fuel + 1, s =>
    match skipWs s with
    | [] => none
    | c :: rest =>
      if c = 110 then (expectPfx [117, 108, 108] rest).map (fun r => (.null, r))
      else if c = 116 then (expectPfx [114, 117, 101] rest).map (fun r => (.bool true, r))
      else if c = 102 then (expectPfx [97, 108, 115, 101] rest).map (fun r => (.bool false, r))
      else if c = 34 then (parseStringBody rest).map (fun p => (.str p.1, p.2))
      else if c = 91 then
        match skipWs rest with
        | [] => none
        | c2 :: rest2 =>
          if c2 = 93 then some (.arr [], rest2)
          else (parseElems fuel (c2 :: rest2)).map (fun p => (.arr p.1, p.2))
      else if c = 123 then
        match skipWs rest with
        | [] => none
        | c2 :: rest2 =>
          if c2 = 125 then some (.obj [], rest2)
          else (parseFields fuel (c2 :: rest2)).map (fun p => (.obj p.1, p.2))
      else (parseNum (c :: rest)).map (fun p => (.num p.1.1 p.1.2, p.2))

/-- Parse one or more comma-separated array elements followed by `]`. -/
def parseElems : Nat → JStr → Option (List Json × JStr)
  | 0, _ => none
  | fuel + 1, s =>
    match parseValue fuel s with
    | none => none
    | some (v, rest) =>
      match skipWs rest with
      | [] => none
      | c :: rest2 =>
        if c = 44 then (parseElems fuel rest2).map (fun p => (v :: p.1, p.2))
        else if c = 93 then some ([v], rest2)
        else none

/-- Parse one or more comma-separated object members followed by `}`. -/
def parseFields : Nat → JStr → Option (List (JStr × Json) × JStr)
  | 0, _ => none
  | fuel + 1, s =>
    match skipWs s with
    | [] => none
    | c :: rest =>
      if c = 34 then
        match parseStringBody rest with
        | none => none
        | some (k, rest1) =>
          match skipWs rest1 with
          | [] => none
          | c2 :: rest2 =>
            if c2 = 58 then
              match parseValue fuel rest2 with
              | none => none
              | some (v, rest3) =>
                match skipWs rest3 with
                | [] => none
                | c3 :: rest4 =>
                  if c3 = 44 then
                    (parseFields fuel rest4).map (fun p => ((k, v) :: p.1, p.2))
                  else if c3 = 125 then some ([(k, v)], rest4)
                  else none
            else none
      else none

end

/-- `JSON.parse`: parse a complete value, requiring only whitespace
after it; `none` models a thrown `SyntaxError`. -/
def parseJson (s : JStr) : Option Json :=
  match parseValue (s.length + 1) s with
  | some (v, rest) => if skipWs rest = [] then some v else none
  | none => none

/-! ### Fuel measures for the parser -/

mutual

/-- Fuel sufficient for `parseValue` on the printed form of a value. -/
def jsonFuel : Json → Nat
  | .arr l => elemsFuel l + 1
  | .obj l => fieldsFuel l + 1
  | _ => 1

/-- Fuel sufficient for `parseElems` on printed elements. -/
def elemsFuel : List Json → Nat
  | [] => 0
  | v :: rest => jsonFuel v + elemsFuel rest + 1

/-- Fuel sufficient for `parseFields` on printed members. -/
def fieldsFuel : List (JStr × Json) → Nat
  | [] => 0
  | kv :: rest => jsonFuel kv.2 + fieldsFuel rest + 1

end

/-- The characters that may follow a printed number without extending
it: anything but a digit or a decimal point. -/
def notNumCont : JStr → Prop
  | [] => True
  | c :: _ => isDigit c = false ∧ c ≠ 46

/-- A string whose head (if any) is not a digit. -/
def headNotDigit : JStr → Prop
  | [] => True
  | c :: _ => isDigit c = false

/-! ## UTF-8, percent-encoding and base64

The share link is built by `handleShare` (`App.tsx` lines 151-166):
`btoa(encodeURIComponent(json).replace(/%([0-9A-F]\x7b2\x7d)/g, (m, p1)
=> String.fromCharCode(parseInt(p1, 16))))` — i.e. percent-encode the
UTF-8 bytes, collapse every `%XX` escape back to the raw byte, and
base64 the byte string. The reader (`loadInitialData` lines 92-101)
inverts it: `decodeURIComponent(atob(d).split('').map(c => '%' + ('00' +
c.charCodeAt(0).toString(16)).slice(-2)).join(''))`. -/

/-- UTF-8 encoding of one Unicode scalar value. -/
def utf8EncodeChar (c : Nat) : List Nat :=
  if c < 128 then [c]
  else if c < 2048 then [192 + c / 64, 128 + c % 64]
  else if c < 65536 then [224 + c / 4096, 128 + (c / 64) % 64, 128 + c % 64]
  else [240 + c / 262144, 128 + (c / 4096) % 64, 128 + (c / 64) % 64, 128 + c % 64]

/-- UTF-8 encoding of a string. -/
def utf8Encode (s : JStr) : List Nat := (s.map utf8EncodeChar).flatten

/-- The characters `encodeURIComponent` leaves unescaped:
`A-Z a-z 0-9 - _ . ! ~ * ' ( )`. -/
def isUnreserved (c : Nat) : Bool :=
  (65 ≤ c && c ≤ 90) || (97 ≤ c && c ≤ 122) || (48 ≤ c && c ≤ 57)
  || c = 45 || c = 95 || c = 46 || c = 33 || c = 126 || c = 42
  || c = 39 || c = 40 || c = 41

/-- Uppercase hexadecimal digit character. -/
def hexUpper (d : Nat) : Nat := if d < 10 then 48 + d else 55 + d

/-- A `%XX` escape (uppercase hex) for one byte. -/
def pctByte (b : Nat) : JStr := [37, hexUpper (b / 16), hexUpper (b % 16)]

/-- `encodeURIComponent`: unreserved characters stay, every other
character becomes the `%XX` escapes of its UTF-8 bytes. -/
def encodeURIComponentM (s : JStr) : JStr :=
  (s.map (fun c =>
    if isUnreserved c then [c] else ((utf8EncodeChar c).map pctByte).flatten)).flatten

/-- Uppercase hexadecimal digit test (as in the `/%([0-9A-F]..)/g`
pattern of `handleShare`). -/
def isHexUpperDigit (c : Nat) : Bool := (48 ≤ c && c ≤ 57) || (65 ≤ c && c ≤ 70)

/-- Value of an uppercase hexadecimal digit character. -/
def hexUpperVal (c : Nat) : Nat := if c ≤ 57 then c - 48 else c - 55

/-- The `.replace(/%([0-9A-F]..)/g, ...)` of `handleShare`: collapse
every `%XX` escape to the byte it denotes, leaving other characters. -/
def collapsePct : JStr → List Nat
  | [] => []
  | [c] => [c]
  | [c, d] => [c, d]
  | c :: h1 :: h2 :: rest =>
    if c = 37 ∧ (isHexUpperDigit h1 && isHexUpperDigit h2) = true then
      (hexUpperVal h1 * 16 + hexUpperVal h2) :: collapsePct rest
    else c :: collapsePct (h1 :: h2 :: rest)

/-- The base64 alphabet character of a 6-bit value. -/
def b64Char (n : Nat) : Nat :=
  if n < 26 then 65 + n
  else if n < 52 then 97 + (n - 26)
  else if n < 62 then 48 + (n - 52)
  else if n = 62 then 43
  else 47

/-- `btoa`: base64 of a byte string (with `=` padding). -/
def btoa : List Nat → List Nat
  | [] => []
  | [b1] => [b64Char (b1 / 4), b64Char (b1 % 4 * 16), 61, 61]
  | [b1, b2] => [b64Char (b1 / 4), b64Char (b1 % 4 * 16 + b2 / 16), b64Char (b2 % 16 * 4), 61]
  | b1 :: b2 :: b3 :: rest =>
    b64Char (b1 / 4) :: b64Char (b1 % 4 * 16 + b2 / 16)
      :: b64Char (b2 % 16 * 4 + b3 / 64) :: b64Char (b3 % 64) :: btoa rest

/-- The 6-bit value of a base64 alphabet character. -/
def b64Val (c : Nat) : Option Nat :=
  if 65 ≤ c ∧ c ≤ 90 then some (c - 65)
  else if 97 ≤ c ∧ c ≤ 122 then some (c - 97 + 26)
  else if 48 ≤ c ∧ c ≤ 57 then some (c - 48 + 52)
  else if c = 43 then some 62
  else if c = 47 then some 63
  else none

/-- `atob`: base64 decoding back to the byte string (`=` padding only
at the very end). -/
def atob : List Nat → Option (List Nat)
  | [] => some []
  | c1 :: c2 :: c3 :: c4 :: rest =>
    (match b64Val c1, b64Val c2 with
     | some v1, some v2 =>
       if c3 = 61 ∧ c4 = 61 ∧ rest = [] then some [v1 * 4 + v2 / 16]
       else if c4 = 61 ∧ rest = [] then
         (match b64Val c3 with
          | some v3 => some [v1 * 4 + v2 / 16, v2 % 16 * 16 + v3 / 4]
          | none => none)
       else
         (match b64Val c3, b64Val c4 with
          | some v3, some v4 =>
            (atob rest).map
              (fun bs => (v1 * 4 + v2 / 16) :: (v2 % 16 * 16 + v3 / 4) :: (v3 % 4 * 64 + v4) :: bs)
          | _, _ => none)
     | _, _ => none)
  | _ => none

/-- One byte as the `%xx` escape (lowercase hex), as the reader builds
with `'%' + ('00' + c.charCodeAt(0).toString(16)).slice(-2)`. -/
def pctByteLower (b : Nat) : JStr := [37, hexLower (b / 16), hexLower (b % 16)]

/-- The reader's re-escaping of the base64-decoded byte string. -/
def hexifyAll (bs : List Nat) : JStr := (bs.map pctByteLower).flatten

/-- First phase of `decodeURIComponent`: turn the text into a token
list, each token either a byte from a `%XX` escape (`Sum.inl`) or a
literal character (`Sum.inr`); a malformed escape is a `URIError`. -/
def pctTokens : JStr → Option (List (Nat ⊕ Nat))
  | [] => some []
  | 37 :: h1 :: h2 :: rest =>
    (match hexVal h1, hexVal h2 with
     | some v1, some v2 => (pctTokens rest).map (.inl (v1 * 16 + v2) :: ·)
     | _, _ => none)
  | c :: rest =>
    if c = 37 then none
    else (pctTokens rest).map (.inr c :: ·)

/-- Continuation byte test. -/
def isCont (b : Nat) : Bool := 128 ≤ b && b ≤ 191

mutual

/-- Second phase of `decodeURIComponent`: UTF-8 decode maximal runs of
escape bytes, pass literal characters through; invalid UTF-8 is a
`URIError`. -/
def decodeTokens : List (Nat ⊕ Nat) → Option JStr
  | [] => some []
  | .inr c :: rest => (decodeTokens rest).map (c :: ·)
  | .inl b :: rest =>
    if b < 128 then (decodeTokens rest).map (b :: ·)
    else if b < 194 then none
    else if b < 224 then decodeCont1 b rest
    else if b < 240 then decodeCont2 b rest
    else if b < 245 then decodeCont3 b rest
    else none

/-- A two-byte sequence: one continuation byte follows. -/
def decodeCont1 (b : Nat) : List (Nat ⊕ Nat) → Option JStr
  | .inl b2 :: rest2 =>
    if isCont b2 then (decodeTokens rest2).map (((b - 192) * 64 + (b2 - 128)) :: ·)
    else none
  | _ => none

/-- A three-byte sequence: two continuation bytes follow. -/
def decodeCont2 (b : Nat) : List (Nat ⊕ Nat) → Option JStr
  | .inl b2 :: .inl b3 :: rest3 =>
    if isCont b2 && isCont b3 then
      (decodeTokens rest3).map (((b - 224) * 4096 + (b2 - 128) * 64 + (b3 - 128)) :: ·)
    else none
  | _ => none

/-- A four-byte sequence: three continuation bytes follow. -/
def decodeCont3 (b : Nat) : List (Nat ⊕ Nat) → Option JStr
  | .inl b2 :: .inl b3 :: .inl b4 :: rest4 =>
    if isCont b2 && isCont b3 && isCont b4 then
      (decodeTokens rest4).map
        (((b - 240) * 262144 + (b2 - 128) * 4096 + (b3 - 128) * 64 + (b4 - 128)) :: ·)
    else none
  | _ => none

end

/-- `decodeURIComponent`. -/
def decodeURIComponentM (s : JStr) : Option JStr :=
  (pctTokens s).bind decodeTokens

/-! ## The share pipeline and `TVShowSeason` serialization -/

/-- Object key `"id"` and friends (character codes of the camelCase
field names from `types.ts`). -/
def keyId : JStr := [105, 100]

def keyTitle : JStr := [116, 105, 116, 108, 101]

def keySeasonNumber : JStr := [115, 101, 97, 115, 111, 110, 78, 117, 109, 98, 101, 114]

def keyNetwork : JStr := [110, 101, 116, 119, 111, 114, 107]

def keyGenres : JStr := [103, 101, 110, 114, 101, 115]

def keyUserRating : JStr := [117, 115, 101, 114, 82, 97, 116, 105, 110, 103]

def keyAggregateRatings : JStr :=
  [97, 103, 103, 114, 101, 103, 97, 116, 101, 82, 97, 116, 105, 110, 103, 115]

def keyUrls : JStr := [117, 114, 108, 115]

def keyStatus : JStr := [115, 116, 97, 116, 117, 115]

def keyReview : JStr := [114, 101, 118, 105, 101, 119]

def keySynopsis : JStr := [115, 121, 110, 111, 112, 115, 105, 115]

def keyStartDate : JStr := [115, 116, 97, 114, 116, 68, 97, 116, 101]

def keyEndDate : JStr := [101, 110, 100, 68, 97, 116, 101]

def keyIsOngoing : JStr := [105, 115, 79, 110, 103, 111, 105, 110, 103]

def keyCreatedAt : JStr := [99, 114, 101, 97, 116, 101, 100, 65, 116]

def keyEpisodeCount : JStr := [101, 112, 105, 115, 111, 100, 101, 67, 111, 117, 110, 116]

def keyAvgEpisodeLength : JStr :=
  [97, 118, 103, 69, 112, 105, 115, 111, 100, 101, 76, 101, 110, 103, 116, 104]

def keyGroundingLinks : JStr :=
  [103, 114, 111, 117, 110, 100, 105, 110, 103, 76, 105, 110, 107, 115]

def keyImdb : JStr := [105, 109, 100, 98]

def keyMetacritic : JStr := [109, 101, 116, 97, 99, 114, 105, 116, 105, 99]

def keyMyanimelist : JStr := [109, 121, 97, 110, 105, 109, 101, 108, 105, 115, 116]

def keyRottenTomatoes : JStr :=
  [114, 111, 116, 116, 101, 110, 84, 111, 109, 97, 116, 111, 101, 115]

def keyTrailer : JStr := [116, 114, 97, 105, 108, 101, 114]

def keyUri : JStr := [117, 114, 105]

/-- An optional object member (`JSON.stringify` omits `undefined`
fields). -/
def optField (k : JStr) (v : Option Json) : List (JStr × Json) :=
  match v with
  | none => []
  | some j => [(k, j)]

/-- The JSON value of an `AggregateRatings` record. -/
def aggToJson (a : AggregateRatings) : Json :=
  .obj (optField keyImdb (a.imdb.map (fun n => .num n.m n.e))
    ++ optField keyMetacritic (a.metacritic.map (fun n => .num n.m n.e))
    ++ optField keyMyanimelist (a.myanimelist.map (fun n => .num n.m n.e))
    ++ optField keyRottenTomatoes (a.rottenTomatoes.map (fun n => .num n.m n.e)))

/-- The JSON value of a `ShowURLs` record. -/
def urlsToJson (u : ShowURLs) : Json :=
  .obj (optField keyImdb (u.imdb.map .str)
    ++ optField keyMetacritic (u.metacritic.map .str)
    ++ optField keyMyanimelist (u.myanimelist.map .str)
    ++ optField keyRottenTomatoes (u.rottenTomatoes.map .str)
    ++ optField keyTrailer (u.trailer.map .str))

/-- The JSON value of a `GroundingLink`. -/
def linkToJson (g : GroundingLink) : Json :=
  .obj [(keyTitle, .str g.title), (keyUri, .str g.uri)]

/-- The JSON value of a `TVShowSeason` record (fields in declaration
order, optional absent fields omitted). -/
def showToJson (s : TVShowSeason) : Json :=
  .obj ([(keyId, .str s.id), (keyTitle, .str s.title),
    (keySeasonNumber, .num s.seasonNumber.m s.seasonNumber.e),
    (keyNetwork, .str s.network),
    (keyGenres, .arr (s.genres.map .str)),
    (keyUserRating, .num s.userRating.m s.userRating.e),
    (keyAggregateRatings, aggToJson s.aggregateRatings),
    (keyUrls, urlsToJson s.urls),
    (keyStatus, .str s.status.str),
    (keyReview, .str s.review),
    (keySynopsis, .str s.synopsis)]
    ++ optField keyStartDate (s.startDate.map .str)
    ++ optField keyEndDate (s.endDate.map .str)
    ++ [(keyIsOngoing, .bool s.isOngoing),
        (keyCreatedAt, .num s.createdAt.m s.createdAt.e)]
    ++ optField keyEpisodeCount (s.episodeCount.map (fun n => .num n.m n.e))
    ++ optField keyAvgEpisodeLength (s.avgEpisodeLength.map (fun n => .num n.m n.e))
    ++ optField keyGroundingLinks (s.groundingLinks.map (fun l => .arr (l.map linkToJson))))

/-- The JSON value of the whole collection. -/
def showsJson (shows : List TVShowSeason) : Json := .arr (shows.map showToJson)

/-- `handleShare` (`App.tsx` lines 151-166) without the URL prefix: the
value of the `data` query parameter. -/
def handleShare (shows : List TVShowSeason) : List Nat :=
  btoa (collapsePct (encodeURIComponentM (stringifyJson (showsJson shows))))

/-- `Array.isArray`. -/
def isArrayJson : Json → Bool
  | .arr _ => true
  | _ => false

/-- The reader's decoding of the `data` query parameter
(`loadInitialData` lines 92-97): `atob`, re-escape every byte,
`decodeURIComponent`, `JSON.parse`; any failure is caught by the caller. -/
def loadSharedData (dataParam : List Nat) : Option Json :=
  (atob dataParam).bind (fun t =>
    (decodeURIComponentM (hexifyAll t)).bind (fun s => parseJson s))

/-- Every character of the string is a code point (the hypothesis under
which the UTF-8 layer of the pipeline is total). -/
def StrValid (s : JStr) : Prop := ∀ c ∈ s, c < 1114112

/-! ## Startup loading (`App.tsx` `loadInitialData`, claim C4) -/

/-- The result of the `fetch('data.json')` / `fetch('./shows.json')`
call: network failure (the promise rejects), a non-ok response, or an
ok response whose body is the given text. -/
inductive FetchResult where
  | netError
  | notOk
  | ok (body : JStr)

/-- What the loader ends up doing: shared-data banner, local data,
server data, or the hard-coded defaults. -/
inductive LoadOutcome where
  | fromShared (j : Json)
  | fromLocal (j : Json)
  | fromServer (j : Json)
  | fromDefaults

/-- The test `x.length > 0` on a parsed JSON value: arrays and strings
carry a numeric `length`; `null.length` throws a `TypeError`; any other
value's `length` is `undefined`, and `undefined > 0` is false. -/
def jsLengthPos : Json → Except Unit Bool
  | .null => .error ()
  | .arr l => .ok (decide (0 < l.length))
  | .str s => .ok (decide (0 < s.length))
  | _ => .ok false

/-- `loadInitialData` (`App.tsx` lines 88-134). The shared-link step
and the fetch step sit inside `try`/`catch`; the local-storage step's
`JSON.parse(saved).length` (line 108) does not — a parse failure there,
or the `TypeError` of `null.length` on a stored `"null"`, is an
uncaught exception (`Except.error ()`) and no later source runs. -/
def loadInitialData (dataParam : Option (List Nat)) (saved : Option JStr)
    (fetched : FetchResult) : Except Unit LoadOutcome :=
  let afterShared : Except Unit LoadOutcome :=
    let afterLocal : Except Unit LoadOutcome :=
      let afterFetch : Except Unit LoadOutcome :=
        match fetched with
        | .ok body =>
          match parseJson body with
          | some j => if isArrayJson j then .ok (.fromServer j) else .ok .fromDefaults
          | none => .ok .fromDefaults
        | _ => .ok .fromDefaults
      match saved with
      | some s =>
        if s = [] then afterFetch
        else
          match parseJson s with
          | none => .error ()
          | some j =>
            match jsLengthPos j with
            | .error e => .error e
            | .ok b => if b then .ok (.fromLocal j) else afterFetch
      | none => afterFetch
    match dataParam with
    | some d =>
      match loadSharedData d with
      | some j => if isArrayJson j then .ok (.fromShared j) else afterLocal
      | none => afterLocal
    | none => afterLocal
  afterShared

/-- `initializeData` of the file-based variant (`part_003` lines
73-103): the local-storage parse IS inside `try`/`catch`, so a parse
failure there falls through to the fetch; a fetch failure or non-ok
response falls back to the defaults. -/
def initData (saved : Option JStr) (fetched : FetchResult) : LoadOutcome :=
  let afterFetch : LoadOutcome :=
    match fetched with
    | .ok body =>
      match parseJson body with
      | some j => .fromServer j
      | none => .fromDefaults
    | _ => .fromDefaults
  match saved with
  | some s =>
    if s = [] then afterFetch
    else
      match parseJson s with
      | none => afterFetch
      | some j => .fromLocal j
  | none => afterFetch

/-! ## File import at the JavaScript value level (claim C7)

`importData` receives whatever `JSON.parse` produced; nothing checks
that the array's elements are season records, so the merge is modelled
over `Json` values, with JavaScript's `===` on the possibly-undefined
`id` members. -/

/-- Member access `x.id` on a parsed JSON value: a `TypeError` on
`null`, the field's value on an object with that key (for duplicate keys
the later one wins), `undefined` otherwise. -/
def jsGetField (j : Json) (k : JStr) : Except Unit (Option Json) :=
  match j with
  | .null => .error ()
  | .obj fields =>
    .ok (((fields.reverse).find? (fun kv => decide (kv.1 = k))).map (fun kv => kv.2))
  | _ => .ok none

/-- JavaScript `===` on possibly-undefined parsed-JSON values:
`undefined === undefined` holds; primitives compare by value (numbers
numerically); distinct objects and arrays (fresh references after
`JSON.parse`) compare unequal. -/
def jsStrictEq : Option Json → Option Json → Bool
  | none, none => true
  | some .null, some .null => true
  | some (.bool a), some (.bool b) => a == b
  | some (.num m1 e1), some (.num m2 e2) => decide (m1 * (10 : Int) ^ e2 = m2 * (10 : Int) ^ e1)
  | some (.str a), some (.str b) => decide (a = b)
  | _, _ => false

/-- JavaScript falsiness of a parsed JSON value: `null`, `false`,
numeric zero and the empty string are falsy; every object and array is
truthy. -/
def jsFalsy : Json → Bool
  | .null => true
  | .bool b => !b
  | .num m _ => decide (m = 0)
  | .str s => decide (s = [])
  | _ => false

/-- `content.find(c => c.id === p.id)`: the first element of `content`
whose `id` member is strictly equal to `p.id`, or `undefined` (`none`)
when there is none; the callback evaluates `c.id` and then `p.id`, so a
`null` operand on either side raises a `TypeError` that propagates. -/
def findById (p : Json) : List Json → Except Unit (Option Json)
  | [] => .ok none
  | c :: rest =>
    match jsGetField c keyId with
    | .error e => .error e
    | .ok cid =>
      match jsGetField p keyId with
      | .error e => .error e
      | .ok pid =>
        if jsStrictEq cid pid then .ok (some c) else findById p rest

/-- `prev.filter(p => !content.find(c => c.id === p.id))` of the merge:
a record is kept when no element of `content` matches or when the first
matching element is itself falsy (`!0` is true); a `TypeError` raised
inside the callback propagates out of the filter. -/
def mergeFilterJ (content : List Json) : List Json → Except Unit (List Json)
  | [] => .ok []
  | p :: rest =>
    match findById p content with
    | .error e => .error e
    | .ok found =>
      match mergeFilterJ content rest with
      | .error e => .error e
      | .ok tail =>
        match found with
        | none => .ok (p :: tail)
        | some c => .ok (if jsFalsy c then p :: tail else tail)

/-- The merge `[...content, ...prev.filter(...)]` of `importData` over
parsed JSON values; a `TypeError` in the filter callback aborts the
whole state update. -/
def mergeJ (content prev : List Json) : Except Unit (List Json) :=
  match mergeFilterJ content prev with
  | .error e => .error e
  | .ok kept => .ok (content ++ kept)

/-- The observable outcome of one `importData` call: a parse failure
alerts `'Invalid JSON.'` and leaves the collection; a non-array value is
ignored with no message; a declined confirmation leaves the collection;
an accepted merge replaces it; a `TypeError` thrown by the merge
callback aborts the state update with the collection unchanged (whether
it resurfaces through the surrounding `catch` or as an uncaught render
error depends on when React evaluates the updater). -/
inductive ImportOutcome where
  | parseAlert (collection : List Json)
  | ignored (collection : List Json)
  | declined (collection : List Json)
  | merged (collection : List Json)
  | mergeTypeError (collection : List Json)

/-- `importData` (`part_003` lines 231-249 / `part_002` lines 458-476)
after the file has been read: parse the text, silently ignore any
non-array value, and evaluate the merge of any array after the user
confirms. -/
def importDataFile (raw : JStr) (prev : List Json) (confirmOk : Bool) : ImportOutcome :=
  match parseJson raw with
  | none => .parseAlert prev
  | some j =>
    match j with
    | .arr content =>
      if confirmOk then
        match mergeJ content prev with
        | .ok newList => .merged newList
        | .error _ => .mergeTypeError prev
      else .declined prev
    | _ => .ignored prev

/-! ## Spec-side merge (for the refinement comparison of claim C1) -/

/-- Modelled from the spec's words (merge-on-import policy): records whose
identifier already exists in the local collection are dropped from the
incoming set; the deduplicated incoming set is prepended to the unchanged
existing collection. Compared against `importSharedData` / `importData`,
which are translated from the source. -/
def specMergeDropIncoming (incoming prev : List TVShowSeason) : List TVShowSeason :=
  (incoming.filter (fun c => decide (c.id ∉ prev.map (fun p => p.id)))) ++ prev

/-- The identifier list of a collection. -/
def ids (l : List TVShowSeason) : List JStr := l.map (fun s => s.id)

/-! ## Concrete sample records -/

/-- A sample record with the given identifier and rating, all other
fields fixed. -/
def mkShow (i : JStr) (rating : JNum) : TVShowSeason :=
  { id := i
    title := [97]
    seasonNumber := ⟨1, 0⟩
    network := [70, 88]
    genres := []
    userRating := rating
    aggregateRatings := ⟨none, none, none, none⟩
    urls := ⟨none, none, none, none, none⟩
    status := .watching
    review := []
    synopsis := []
    startDate := none
    endDate := none
    isOngoing := false
    createdAt := ⟨0, 0⟩
    episodeCount := none
    avgEpisodeLength := none
    groundingLinks := none }

/-- Local copy of record `"a"`, rating 3. -/
def showLocalA : TVShowSeason := mkShow [97] ⟨3, 0⟩

/-- Incoming copy of record `"a"`, rating 5 (same identifier as
`showLocalA`, different field values). -/
def showIncomingA : TVShowSeason := mkShow [97] ⟨5, 0⟩

/-- Incoming record with the fresh identifier `"b"`. -/
def showNewB : TVShowSeason := mkShow [98] ⟨4, 0⟩

/-- First of two incoming records sharing the identifier `"x"`. -/
def showDupX1 : TVShowSeason := mkShow [120] ⟨3, 0⟩

/-- Second of two incoming records sharing the identifier `"x"`. -/
def showDupX2 : TVShowSeason := mkShow [120] ⟨4, 0⟩

/-- An importable record whose rating 7 lies outside `[1, 5]`. -/
def showBadRating : TVShowSeason := mkShow [99] ⟨7, 0⟩

/-- A record with a decimal rating (4.8), used to exercise the share
pipeline. -/
def sampleShareShow : TVShowSeason := mkShow [97] ⟨48, 1⟩

/-- The parsed-JSON form of `showLocalA`. -/
def sampleShowJ : Json := showToJson showLocalA

/-- A sample filled form: title `"a"`, rating 3. -/
def sampleForm : FormData :=
  { id := none
    title := some [97]
    seasonNumber := some ⟨1, 0⟩
    network := none
    genres := none
    userRating := some ⟨3, 0⟩
    aggregateRatings := none
    urls := none
    status := none
    review := none
    synopsis := none
    startDate := none
    endDate := none
    isOngoing := none
    createdAt := none
    episodeCount := none
    avgEpisodeLength := none
    groundingLinks := none }

/-- The record `ShowModal.handleSave` assembles from `sampleForm` with an
empty minted identifier and timestamp 0. -/
def sampleSaved : TVShowSeason :=
  { id := []
    title := [97]
    seasonNumber := ⟨1, 0⟩
    network := [85, 110, 107, 110, 111, 119, 110]
    genres := []
    userRating := ⟨3, 0⟩
    aggregateRatings := ⟨none, none, none, none⟩
    urls := ⟨none, none, none, none, none⟩
    status := .watching
    review := []
    synopsis := []
    startDate := none
    endDate := none
    isOngoing := false
    createdAt := ⟨0, 0⟩
    episodeCount := some ⟨0, 0⟩
    avgEpisodeLength := some ⟨0, 0⟩
    groundingLinks := some [] }

/-! # Theorems -/

/-- A `JNum` has value zero exactly when its mantissa is zero. -/
theorem JNum.val_eq_zero_iff (n : JNum) : n.val = 0 ↔ n.m = 0 := by
  unfold JNum.val
  rw [div_eq_zero_iff]
  constructor
  · rintro (h | h)
    · exact_mod_cast h
    · exact absurd h (by positivity)
  · intro h
    exact Or.inl (by exact_mod_cast h)

/-- Skipping whitespace does nothing on a non-whitespace head. -/
theorem skipWs_cons (c : Nat) (s : JStr) (h : isWs c = false) :
    skipWs (c :: s) = c :: s := by
  simp only [skipWs, h]
  simp

/-- `expectPfx` consumes exactly its literal. -/
theorem expectPfx_append (p rest : JStr) : expectPfx p (p ++ rest) = some rest := by
  induction p with
  | nil => rfl
  | cons c cs ih => simp [expectPfx, ih]

/-- Every digit produced by `digitsRev` is below 10. -/
theorem digitsRev_lt (fuel : Nat) :
    ∀ n d, d ∈ digitsRev fuel n → d < 10 := by
  induction fuel with
  | zero => intro n d h; simp [digitsRev] at h
  | succ f ih =>
    intro n d h
    cases n with
    | zero => simp [digitsRev] at h
    | succ k =>
      simp only [digitsRev, List.mem_cons] at h
      rcases h with h | h
      · omega
      · exact ih _ _ h

/-- Folding a digit onto the end multiplies the accumulated value by
ten. -/
theorem digitsVal_append_singleton (ds : List Nat) (d : Nat) :
    digitsVal (ds ++ [d]) = 10 * digitsVal ds + d := by
  simp [digitsVal, List.foldl_append]

/-- The reversed fuelled digit list evaluates back to the number. -/
theorem digitsVal_digitsRev (fuel : Nat) :
    ∀ n, n ≤ fuel → digitsVal ((digitsRev fuel n).reverse) = n := by
  induction fuel with
  | zero =>
    intro n h
    interval_cases n
    simp [digitsRev, digitsVal]
  | succ f ih =>
    intro n h
    cases n with
    | zero => simp [digitsRev, digitsVal]
    | succ k =>
      have hdiv : (k + 1) / 10 ≤ f := by omega
      simp only [digitsRev, List.reverse_cons]
      rw [digitsVal_append_singleton, ih _ hdiv]
      omega

/-- Leading zero digits do not change the value. -/
theorem digitsVal_replicate_zero (k : Nat) (ds : List Nat) :
    digitsVal (List.replicate k 0 ++ ds) = digitsVal ds := by
  induction k with
  | zero => rfl
  | succ j ih =>
    simp only [List.replicate_succ, List.cons_append]
    show digitsVal (List.replicate j 0 ++ ds) = digitsVal ds
    exact ih

/-- `natDigitChars` produces decimal digit characters. -/
theorem natDigitChars_isDigit (n : Nat) :
    ∀ c ∈ natDigitChars n, isDigit c = true := by
  intro c hc
  unfold natDigitChars at hc
  by_cases h : n = 0
  · rw [if_pos h] at hc
    simp at hc
    simp [hc, isDigit]
  · rw [if_neg h] at hc
    simp only [List.mem_map, List.mem_reverse] at hc
    rcases hc with ⟨d, hd, rfl⟩
    have := digitsRev_lt n n d hd
    simp [isDigit]
    omega

/-- The digit characters of `n` evaluate back to `n`. -/
theorem digitsVal_natDigitChars (n : Nat) :
    digitsVal ((natDigitChars n).map (fun c => c - 48)) = n := by
  unfold natDigitChars
  by_cases h : n = 0
  · rw [if_pos h]
    simp [digitsVal, h]
  · rw [if_neg h]
    have hmap : ((digitsRev n n).reverse.map (fun d => 48 + d)).map (fun c => c - 48)
        = (digitsRev n n).reverse := by
      rw [List.map_map]
      have hfun : ((fun c => c - 48) ∘ fun d => 48 + d) = fun d : Nat => d := by
        funext d
        simp
      rw [hfun]
      simp
    rw [hmap]
    exact digitsVal_digitsRev n n le_rfl

/-- `padZero` keeps digit-character lists digit characters. -/
theorem padZero_isDigit (w : Nat) (ds : JStr) (h : ∀ c ∈ ds, isDigit c = true) :
    ∀ c ∈ padZero w ds, isDigit c = true := by
  intro c hc
  unfold padZero at hc
  rw [List.mem_append] at hc
  rcases hc with hc | hc
  · have := List.eq_of_mem_replicate hc
    simp [this, isDigit]
  · exact h c hc

/-- The padded digit characters of `n` still evaluate to `n`. -/
theorem digitsVal_padZero (w n : Nat) :
    digitsVal ((padZero w (natDigitChars n)).map (fun c => c - 48)) = n := by
  unfold padZero
  rw [List.map_append]
  have hrep : (List.replicate (w - (natDigitChars n).length) 48).map (fun c => c - 48)
      = List.replicate (w - (natDigitChars n).length) 0 := by
    simp [List.map_replicate]
  rw [hrep, digitsVal_replicate_zero, digitsVal_natDigitChars]

/-- `parseDigits` consumes exactly a run of digit characters. -/
theorem parseDigits_spec (cs : JStr) (h : ∀ c ∈ cs, isDigit c = true) (rest : JStr)
    (hrest : headNotDigit rest) :
    parseDigits (cs ++ rest) = (cs.map (fun c => c - 48), rest) := by
  induction cs with
  | nil =>
    cases rest with
    | nil => rfl
    | cons c r =>
      simp only [headNotDigit] at hrest
      simp [parseDigits, hrest]
  | cons c cs ih =>
    have hc := h c (by simp)
    simp only [List.cons_append, parseDigits, hc, if_true, List.append_eq]
    rw [ih (fun x hx => h x (by simp [hx]))]
    simp
theorem filter_keep_all_of_not_mem (prev : List TVShowSeason) (idsInc : List JStr)
    (h : ∀ p ∈ prev, p.id ∉ idsInc) :
    prev.filter (fun p => decide (p.id ∉ idsInc)) = prev := by
  apply List.filter_eq_self.mpr
  intro p hp
  simpa using h p hp

/-- Helper: dropping the records carrying one present identifier (and one
absent one) from a duplicate-free collection removes exactly one record. -/
theorem length_filter_two_ids (prev : List TVShowSeason) (aid bid : JStr)
    (hnd : (ids prev).Nodup) (ha : aid ∈ ids prev) (hb : bid ∉ ids prev) :
    (prev.filter (fun p => decide (p.id ∉ [aid, bid]))).length = prev.length - 1 := by
  induction prev with
  | nil => simp [ids] at ha
  | cons p rest ih =>
    simp only [ids, List.map_cons, List.nodup_cons, List.mem_cons] at hnd ha hb
    push_neg at hb
    by_cases hpa : p.id = aid
    · have hfil : rest.filter (fun q => decide (q.id ∉ [aid, bid])) = rest := by
        apply List.filter_eq_self.mpr
        intro q hq
        apply decide_eq_true
        intro hmem
        simp only [List.mem_cons, List.not_mem_nil, or_false] at hmem
        rcases hmem with h | h
        · exact hnd.1 (by rw [hpa, ← h]; exact List.mem_map_of_mem _ hq)
        · exact hb.2 (h ▸ List.mem_map_of_mem _ hq)
      have hc : (decide (p.id ∉ [aid, bid])) = false :=
        decide_eq_false (by simp [hpa])
      rw [List.filter_cons, if_neg (by rw [hc]; simp), hfil]
      simp
    · have ha' : aid ∈ List.map (fun s => s.id) rest := by
        rcases ha with h | h
        · exact absurd h.symm hpa
        · exact h
      have hc : (decide (p.id ∉ [aid, bid])) = true := by
        apply decide_eq_true
        intro hmem
        simp only [List.mem_cons, List.not_mem_nil, or_false] at hmem
        rcases hmem with h | h
        · exact hpa h
        · exact hb.1 h.symm
      have hrest := ih hnd.2 ha' hb.2
      have hpos : 0 < rest.length := by
        cases rest with
        | nil => simp at ha'
        | cons _ _ => simp
      simp only [List.filter_cons, hc, if_true, List.length_cons, hrest]
      omega

/-- A number boundary in particular starts with no digit. -/
theorem headNotDigit_of_notNumCont : ∀ rest : JStr, notNumCont rest → headNotDigit rest
  | [], _ => trivial
  | _ :: _, h => h.1

/-- `parseNumBody` on a plain digit run. -/
theorem parseNumBody_digits (ds : JStr) (hne : ds ≠ [])
    (hdig : ∀ c ∈ ds, isDigit c = true) (rest : JStr) (hrest : notNumCont rest) :
    parseNumBody (ds ++ rest)
      = some ((digitsVal (ds.map (fun c => c - 48)), 0), rest) := by
  obtain ⟨d0, ds', rfl⟩ := List.exists_cons_of_ne_nil hne
  unfold parseNumBody
  rw [parseDigits_spec _ hdig rest (headNotDigit_of_notNumCont rest hrest)]
  simp only [List.map_cons]
  cases rest with
  | nil => rfl
  | cons c r1 =>
    simp only [notNumCont] at hrest
    simp [hrest.2]

/-- `parseNumBody` on integer digits, a point, and fraction digits. -/
theorem parseNumBody_digits_frac (ids fds : JStr) (hne : ids ≠ []) (hfne : fds ≠ [])
    (hdig : ∀ c ∈ ids, isDigit c = true) (hfdig : ∀ c ∈ fds, isDigit c = true)
    (rest : JStr) (hrest : notNumCont rest) :
    parseNumBody (ids ++ 46 :: (fds ++ rest))
      = some ((digitsVal ((ids ++ fds).map (fun c => c - 48)), fds.length), rest) := by
  obtain ⟨d0, ids', rfl⟩ := List.exists_cons_of_ne_nil hne
  obtain ⟨f0, fds', rfl⟩ := List.exists_cons_of_ne_nil hfne
  have h46 : headNotDigit (46 :: ((f0 :: fds') ++ rest)) := by
    simp [headNotDigit, isDigit]
  unfold parseNumBody
  rw [show (d0 :: ids') ++ 46 :: ((f0 :: fds') ++ rest)
      = (d0 :: ids') ++ (46 :: ((f0 :: fds') ++ rest)) from rfl]
  rw [parseDigits_spec _ hdig _ h46]
  simp only [List.map_cons]
  rw [if_pos trivial]
  rw [parseDigits_spec _ hfdig rest (headNotDigit_of_notNumCont rest hrest)]
  simp [List.map_append]

/-- `parseNum` inverts `stringifyNum` at a number boundary. -/
theorem parseNum_stringifyNum (m : Int) (e : Nat) (rest : JStr)
    (hrest : notNumCont rest) :
    parseNum (stringifyNum m e ++ rest) = some ((m, e), rest) := by
  unfold stringifyNum
  have hdsdig : ∀ c ∈ padZero (e + 1) (natDigitChars m.natAbs), isDigit c = true :=
    padZero_isDigit _ _ (natDigitChars_isDigit _)
  have hdslen : e + 1 ≤ (padZero (e + 1) (natDigitChars m.natAbs)).length := by
    unfold padZero
    rw [List.length_append, List.length_replicate]
    omega
  set ds := padZero (e + 1) (natDigitChars m.natAbs) with hds
  have hdsne : ds ≠ [] := by
    intro h
    rw [h] at hdslen
    simp at hdslen
  have hval : digitsVal (ds.map (fun c => c - 48)) = m.natAbs := digitsVal_padZero _ _
  by_cases he : e = 0
  · subst he
    rw [if_pos rfl]
    have hbody : parseNumBody (ds ++ rest)
        = some ((m.natAbs, 0), rest) := by
      rw [parseNumBody_digits ds hdsne hdsdig rest hrest, hval]
    by_cases hm : m < 0
    · rw [if_pos hm]
      show parseNum (45 :: (ds ++ rest)) = _
      simp only [parseNum]
      rw [if_pos trivial, hbody]
      simp only [Option.map_some']
      rw [show -((m.natAbs : Int)) = m by omega]
    · rw [if_neg hm]
      obtain ⟨d0, ds', hcons⟩ := List.exists_cons_of_ne_nil hdsne
      have hd0 : isDigit d0 = true := hdsdig d0 (by rw [hcons]; simp)
      have hd045 : ¬ d0 = 45 := by
        simp only [isDigit, Bool.and_eq_true, decide_eq_true_eq] at hd0
        omega
      rw [show ([] : JStr) ++ ds ++ rest = ds ++ rest by simp]
      rw [hcons, List.cons_append]
      simp only [parseNum]
      rw [if_neg hd045, ← List.cons_append, ← hcons, hbody]
      simp only [Option.map_some']
      rw [show ((m.natAbs : Int)) = m by omega]
  · rw [if_neg he]
    have htake_dig : ∀ c ∈ ds.take (ds.length - e), isDigit c = true :=
      fun c hc => hdsdig c (List.take_subset _ _ hc)
    have hdrop_dig : ∀ c ∈ ds.drop (ds.length - e), isDigit c = true :=
      fun c hc => hdsdig c (List.drop_subset _ _ hc)
    have htake_ne : ds.take (ds.length - e) ≠ [] := by
      intro h
      have := congrArg List.length h
      rw [List.length_take] at this
      simp at this
      omega
    have hdrop_ne : ds.drop (ds.length - e) ≠ [] := by
      intro h
      have := congrArg List.length h
      rw [List.length_drop] at this
      simp at this
      omega
    have hdrop_len : (ds.drop (ds.length - e)).length = e := by
      rw [List.length_drop]
      omega
    have hbody : parseNumBody (ds.take (ds.length - e) ++ 46 :: (ds.drop (ds.length - e) ++ rest))
        = some ((m.natAbs, e), rest) := by
      rw [parseNumBody_digits_frac _ _ htake_ne hdrop_ne htake_dig hdrop_dig rest hrest]
      rw [List.take_append_drop, hval, hdrop_len]
    by_cases hm : m < 0
    · rw [if_pos hm]
      have hassoc : [45] ++ ds.take (ds.length - e) ++ [46] ++ ds.drop (ds.length - e) ++ rest
          = 45 :: (ds.take (ds.length - e) ++ 46 :: (ds.drop (ds.length - e) ++ rest)) := by
        simp
      rw [hassoc]
      simp only [parseNum]
      rw [if_pos trivial, hbody]
      simp only [Option.map_some']
      rw [show -((m.natAbs : Int)) = m by omega]
    · rw [if_neg hm]
      obtain ⟨d0, ds', hcons⟩ := List.exists_cons_of_ne_nil htake_ne
      have hd0 : isDigit d0 = true := htake_dig d0 (by rw [hcons]; simp)
      have hd045 : ¬ d0 = 45 := by
        simp only [isDigit, Bool.and_eq_true, decide_eq_true_eq] at hd0
        omega
      have hassoc : ([] : JStr) ++ ds.take (ds.length - e) ++ [46] ++ ds.drop (ds.length - e) ++ rest
          = ds.take (ds.length - e) ++ 46 :: (ds.drop (ds.length - e) ++ rest) := by
        simp
      rw [hassoc, hcons, List.cons_append]
      simp only [parseNum]
      rw [if_neg hd045, ← List.cons_append, ← hcons, hbody]
      simp only [Option.map_some']
      rw [show ((m.natAbs : Int)) = m by omega]

/-- `hexVal` inverts `hexLower` on one nibble. -/
theorem hexVal_hexLower (d : Nat) (h : d < 16) : hexVal (hexLower d) = some d := by
  unfold hexVal hexLower
  split_ifs <;> simp_all <;> omega

/-- `parseStringBody` inverts the escaping of `stringifyStr` up to the
closing quote. -/
theorem parseStringBody_escape (s : JStr) (rest : JStr) :
    parseStringBody ((s.map escapeChar).flatten ++ 34 :: rest) = some (s, rest) := by
  induction s with
  | nil =>
    show parseStringBody (34 :: rest) = some ([], rest)
    rw [parseStringBody.eq_def]
    norm_num
  | cons c cs ih =>
    simp only [List.map_cons, List.flatten_cons, List.append_assoc]
    by_cases h34 : c = 34
    · rw [show escapeChar c = [92, 34] by subst h34; rfl]
      show parseStringBody (92 :: 34 :: ((cs.map escapeChar).flatten ++ 34 :: rest)) = _
      rw [parseStringBody.eq_def]
      norm_num
      rw [ih]
      simp [h34]
    · by_cases h92 : c = 92
      · rw [show escapeChar c = [92, 92] by subst h92; rfl]
        show parseStringBody (92 :: 92 :: ((cs.map escapeChar).flatten ++ 34 :: rest)) = _
        rw [parseStringBody.eq_def]
        norm_num
        rw [ih]
        simp [h92]
      · by_cases h8 : c = 8
        · rw [show escapeChar c = [92, 98] by subst h8; rfl]
          show parseStringBody (92 :: 98 :: ((cs.map escapeChar).flatten ++ 34 :: rest)) = _
          rw [parseStringBody.eq_def]
          norm_num
          rw [ih]
          simp [h8]
        · by_cases h9 : c = 9
          · rw [show escapeChar c = [92, 116] by
              unfold escapeChar
              rw [if_neg h34, if_neg h92, if_neg h8, if_pos h9]]
            show parseStringBody (92 :: 116 :: ((cs.map escapeChar).flatten ++ 34 :: rest)) = _
            rw [parseStringBody.eq_def]
            norm_num
            rw [ih]
            simp [h9]
          · by_cases h10 : c = 10
            · rw [show escapeChar c = [92, 110] by
                unfold escapeChar
                rw [if_neg h34, if_neg h92, if_neg h8, if_neg h9, if_pos h10]]
              show parseStringBody (92 :: 110 :: ((cs.map escapeChar).flatten ++ 34 :: rest)) = _
              rw [parseStringBody.eq_def]
              norm_num
              rw [ih]
              simp [h10]
            · by_cases h12 : c = 12
              · rw [show escapeChar c = [92, 102] by
                  unfold escapeChar
                  rw [if_neg h34, if_neg h92, if_neg h8, if_neg h9, if_neg h10, if_pos h12]]
                show parseStringBody (92 :: 102 :: ((cs.map escapeChar).flatten ++ 34 :: rest)) = _
                rw [parseStringBody.eq_def]
                norm_num
                rw [ih]
                simp [h12]
              · by_cases h13 : c = 13
                · rw [show escapeChar c = [92, 114] by
                    unfold escapeChar
                    rw [if_neg h34, if_neg h92, if_neg h8, if_neg h9, if_neg h10,
                      if_neg h12, if_pos h13]]
                  show parseStringBody (92 :: 114 :: ((cs.map escapeChar).flatten ++ 34 :: rest)) = _
                  rw [parseStringBody.eq_def]
                  norm_num
                  rw [ih]
                  simp [h13]
                · by_cases hctl : c < 32
                  · rw [show escapeChar c
                        = [92, 117, 48, 48, hexLower (c / 16), hexLower (c % 16)] by
                      unfold escapeChar
                      rw [if_neg h34, if_neg h92, if_neg h8, if_neg h9, if_neg h10,
                        if_neg h12, if_neg h13, if_pos hctl]]
                    show parseStringBody (92 :: 117 :: 48 :: 48 :: hexLower (c / 16)
                        :: hexLower (c % 16) :: ((cs.map escapeChar).flatten ++ 34 :: rest)) = _
                    rw [parseStringBody.eq_def]
                    norm_num
                    rw [show hexVal 48 = some 0 from rfl,
                      hexVal_hexLower (c / 16) (by omega), hexVal_hexLower (c % 16) (by omega)]
                    rw [ih]
                    simp only [Option.map_some']
                    have hc : c / 16 * 16 + c % 16 = c := by omega
                    simp [hc]
                  · rw [show escapeChar c = [c] by
                      unfold escapeChar
                      rw [if_neg h34, if_neg h92, if_neg h8, if_neg h9, if_neg h10,
                        if_neg h12, if_neg h13, if_neg hctl]]
                    show parseStringBody (c :: ((cs.map escapeChar).flatten ++ 34 :: rest)) = _
                    rw [parseStringBody.eq_def]
                    simp only []
                    rw [if_neg h34, if_neg h92, if_neg (by omega : ¬ c < 32)]
                    rw [ih]
                    simp

/-- A printed number starts with a minus sign or a digit. -/
theorem stringifyNum_head (m : Int) (e : Nat) :
    ∃ c cs, stringifyNum m e = c :: cs ∧ (c = 45 ∨ (48 ≤ c ∧ c ≤ 57)) := by
  unfold stringifyNum
  have hdsdig : ∀ c ∈ padZero (e + 1) (natDigitChars m.natAbs), isDigit c = true :=
    padZero_isDigit _ _ (natDigitChars_isDigit _)
  have hdslen : e + 1 ≤ (padZero (e + 1) (natDigitChars m.natAbs)).length := by
    unfold padZero
    rw [List.length_append, List.length_replicate]
    omega
  set ds := padZero (e + 1) (natDigitChars m.natAbs) with hds
  have hdsne : ds ≠ [] := by
    intro h
    rw [h] at hdslen
    simp at hdslen
  by_cases he : e = 0
  · subst he
    rw [if_pos rfl]
    by_cases hm : m < 0
    · rw [if_pos hm]
      obtain ⟨d0, ds', hcons⟩ := List.exists_cons_of_ne_nil hdsne
      exact ⟨45, ds ++ [], by simp, Or.inl rfl⟩
    · rw [if_neg hm]
      obtain ⟨d0, ds', hcons⟩ := List.exists_cons_of_ne_nil hdsne
      have hd0 : isDigit d0 = true := hdsdig d0 (by rw [hcons]; simp)
      simp only [isDigit, Bool.and_eq_true, decide_eq_true_eq] at hd0
      exact ⟨d0, ds', by rw [hcons]; simp, Or.inr hd0⟩
  · rw [if_neg he]
    have htake_ne : ds.take (ds.length - e) ≠ [] := by
      intro h
      have := congrArg List.length h
      rw [List.length_take] at this
      simp at this
      omega
    by_cases hm : m < 0
    · rw [if_pos hm]
      refine ⟨45, ds.take (ds.length - e) ++ [46] ++ ds.drop (ds.length - e), by simp, Or.inl rfl⟩
    · rw [if_neg hm]
      obtain ⟨d0, ds', hcons⟩ := List.exists_cons_of_ne_nil htake_ne
      have hd0 : isDigit d0 = true :=
        hdsdig d0 (List.take_subset _ _ (by rw [hcons]; simp))
      simp only [isDigit, Bool.and_eq_true, decide_eq_true_eq] at hd0
      exact ⟨d0, ds' ++ [46] ++ ds.drop (ds.length - e), by rw [hcons]; simp, Or.inr hd0⟩

/-- A printed value starts with a non-whitespace character that is
neither a closing bracket nor a closing brace. -/
theorem stringifyJson_head (v : Json) :
    ∃ c cs, stringifyJson v = c :: cs ∧ isWs c = false ∧ ¬ c = 93 ∧ ¬ c = 125 := by
  cases v with
  | null => exact ⟨110, _, rfl, rfl, by omega, by omega⟩
  | bool b =>
    cases b with
    | true => exact ⟨116, _, rfl, rfl, by omega, by omega⟩
    | false => exact ⟨102, _, rfl, rfl, by omega, by omega⟩
  | num m e =>
    obtain ⟨c, cs, hcons, hc⟩ := stringifyNum_head m e
    refine ⟨c, cs, hcons, ?_, by omega, by omega⟩
    unfold isWs
    rcases hc with h | h <;> simp <;> omega
  | str s => exact ⟨34, _, rfl, rfl, by omega, by omega⟩
  | arr l => exact ⟨91, _, rfl, rfl, by omega, by omega⟩
  | obj l => exact ⟨123, _, rfl, rfl, by omega, by omega⟩

/-- The printed elements of a nonempty list start with the first
element's printed form. -/
theorem stringifyElems_cons_eq (w : Json) (tl : List Json) :
    ∃ t, stringifyElems (w :: tl) = stringifyJson w ++ t := by
  cases tl with
  | nil => exact ⟨[], by simp [stringifyElems]⟩
  | cons y tl' => exact ⟨44 :: stringifyElems (y :: tl'), rfl⟩

/-- The printed members of a nonempty object start with a quote. -/
theorem stringifyFields_head (kv : JStr × Json) (tl : List (JStr × Json)) :
    ∃ cs, stringifyFields (kv :: tl) = 34 :: cs := by
  obtain ⟨k, v⟩ := kv
  cases tl with
  | nil => exact ⟨(k.map escapeChar).flatten ++ [34] ++ 58 :: stringifyJson v, by
      simp [stringifyFields, stringifyStr]⟩
  | cons w tl' => exact ⟨(k.map escapeChar).flatten ++ [34] ++ 58 :: stringifyJson v
      ++ 44 :: stringifyFields (w :: tl'), by simp [stringifyFields, stringifyStr]⟩

/-- Every value needs at least one unit of fuel. -/
theorem jsonFuel_pos (v : Json) : 1 ≤ jsonFuel v := by
  cases v <;> simp [jsonFuel]

/-- A nonempty element list needs at least one unit of fuel. -/
theorem elemsFuel_pos (l : List Json) (h : l ≠ []) : 1 ≤ elemsFuel l := by
  obtain ⟨v, tl, rfl⟩ := List.exists_cons_of_ne_nil h
  simp [elemsFuel]

/-- A nonempty member list needs at least one unit of fuel. -/
theorem fieldsFuel_pos (l : List (JStr × Json)) (h : l ≠ []) : 1 ≤ fieldsFuel l := by
  obtain ⟨kv, tl, rfl⟩ := List.exists_cons_of_ne_nil h
  simp [fieldsFuel]

mutual

/-- The printed form is at least as long as the fuel a value needs. -/
theorem jsonFuel_le_length : ∀ v : Json, jsonFuel v ≤ (stringifyJson v).length
  | .null => by simp [jsonFuel, stringifyJson]
  | .bool true => by simp [jsonFuel, stringifyJson]
  | .bool false => by simp [jsonFuel, stringifyJson]
  | .num m e => by
    obtain ⟨c, cs, hcons, _⟩ := stringifyNum_head m e
    show jsonFuel (.num m e) ≤ (stringifyNum m e).length
    rw [hcons]
    simp [jsonFuel]
  | .str s => by simp [jsonFuel, stringifyJson, stringifyStr]
  | .arr l => by
    have := elemsFuel_le_length l
    show elemsFuel l + 1 ≤ (91 :: stringifyElems l ++ [93]).length
    simp only [List.length_cons, List.length_append, List.length_cons, List.length_nil]
    omega
  | .obj l => by
    have := fieldsFuel_le_length l
    show fieldsFuel l + 1 ≤ (123 :: stringifyFields l ++ [125]).length
    simp only [List.length_cons, List.length_append, List.length_cons, List.length_nil]
    omega

/-- Element-list fuel is bounded by the printed length plus one. -/
theorem elemsFuel_le_length : ∀ l : List Json, elemsFuel l ≤ (stringifyElems l).length + 1
  | [] => by simp [elemsFuel, stringifyElems]
  | [v] => by
    have := jsonFuel_le_length v
    show jsonFuel v + elemsFuel [] + 1 ≤ (stringifyElems [v]).length + 1
    simp only [elemsFuel, stringifyElems]
    omega
  | v :: w :: tl => by
    have h1 := jsonFuel_le_length v
    have h2 := elemsFuel_le_length (w :: tl)
    show jsonFuel v + elemsFuel (w :: tl) + 1
        ≤ (stringifyJson v ++ 44 :: stringifyElems (w :: tl)).length + 1
    simp only [List.length_append, List.length_cons]
    omega

/-- Member-list fuel is bounded by the printed length plus one. -/
theorem fieldsFuel_le_length :
    ∀ l : List (JStr × Json), fieldsFuel l ≤ (stringifyFields l).length + 1
  | [] => by simp [fieldsFuel, stringifyFields]
  | [(k, v)] => by
    have := jsonFuel_le_length v
    show jsonFuel v + fieldsFuel [] + 1 ≤ (stringifyStr k ++ 58 :: stringifyJson v).length + 1
    simp only [fieldsFuel, List.length_append, List.length_cons]
    omega
  | (k, v) :: w :: tl => by
    have h1 := jsonFuel_le_length v
    have h2 := fieldsFuel_le_length (w :: tl)
    show jsonFuel v + fieldsFuel (w :: tl) + 1
        ≤ (stringifyStr k ++ 58 :: stringifyJson v ++ 44 :: stringifyFields (w :: tl)).length + 1
    simp only [List.length_append, List.length_cons]
    omega

end

/-- Introduction form for `notNumCont`. -/
theorem notNumCont_cons (c : Nat) (s : JStr) (h1 : isDigit c = false) (h2 : ¬ c = 46) :
    notNumCont (c :: s) := ⟨h1, h2⟩

/-- The parser inverts the printer: with enough fuel, parsing the
printed form of a value (or of a nonempty element/member list up to its
closing bracket) succeeds and returns exactly that value and the
remaining input. -/
theorem parse_stringify (fuel : Nat) :
    (∀ (v : Json) (rest : JStr), jsonFuel v ≤ fuel → notNumCont rest →
      parseValue fuel (stringifyJson v ++ rest) = some (v, rest))
    ∧ (∀ (l : List Json) (rest : JStr), l ≠ [] → elemsFuel l ≤ fuel →
      parseElems fuel (stringifyElems l ++ 93 :: rest) = some (l, rest))
    ∧ (∀ (l : List (JStr × Json)) (rest : JStr), l ≠ [] → fieldsFuel l ≤ fuel →
      parseFields fuel (stringifyFields l ++ 125 :: rest) = some (l, rest)) := by
  induction fuel with
  | zero =>
    refine ⟨?_, ?_, ?_⟩
    · intro v rest hf _
      have := jsonFuel_pos v
      omega
    · intro l rest hne hf
      have := elemsFuel_pos l hne
      omega
    · intro l rest hne hf
      have := fieldsFuel_pos l hne
      omega
  | succ f ih =>
    obtain ⟨ihv, ihe, ihf⟩ := ih
    refine ⟨?_, ?_, ?_⟩
    · intro v rest hfuel hrest
      cases v with
      | null =>
        show parseValue (f + 1) (110 :: 117 :: 108 :: 108 :: rest) = _
        simp only [parseValue]
        norm_num [skipWs, isWs, expectPfx]
      | bool b =>
        cases b with
        | true =>
          show parseValue (f + 1) (116 :: 114 :: 117 :: 101 :: rest) = _
          simp only [parseValue]
          norm_num [skipWs, isWs, expectPfx]
        | false =>
          show parseValue (f + 1) (102 :: 97 :: 108 :: 115 :: 101 :: rest) = _
          simp only [parseValue]
          norm_num [skipWs, isWs, expectPfx]
      | num m e =>
        obtain ⟨c, cs, hcons, hc⟩ := stringifyNum_head m e
        show parseValue (f + 1) (stringifyNum m e ++ rest) = _
        rw [hcons, List.cons_append]
        simp only [parseValue]
        rw [skipWs_cons c _ (by unfold isWs; rcases hc with h | h <;> simp <;> omega)]
        simp only []
        rw [if_neg (by omega : ¬ c = 110), if_neg (by omega : ¬ c = 116),
          if_neg (by omega : ¬ c = 102), if_neg (by omega : ¬ c = 34),
          if_neg (by omega : ¬ c = 91), if_neg (by omega : ¬ c = 123)]
        rw [← List.cons_append, ← hcons, parseNum_stringifyNum m e rest hrest]
        rfl
      | str s =>
        have hassoc : stringifyJson (.str s) ++ rest
            = 34 :: ((s.map escapeChar).flatten ++ 34 :: rest) := by
          show (34 :: ((s.map escapeChar).flatten ++ [34])) ++ rest = _
          simp
        rw [hassoc]
        simp only [parseValue]
        rw [skipWs_cons 34 _ rfl]
        simp only []
        rw [if_neg (by omega : ¬ (34 : Nat) = 110), if_neg (by omega : ¬ (34 : Nat) = 116),
          if_neg (by omega : ¬ (34 : Nat) = 102), if_pos (by trivial)]
        rw [parseStringBody_escape]
        rfl
      | arr l =>
        cases l with
        | nil =>
          show parseValue (f + 1) ((91 :: ([] ++ [93])) ++ rest) = _
          have : (91 :: (([] : JStr) ++ [93])) ++ rest = 91 :: 93 :: rest := by simp
          rw [this]
          simp only [parseValue]
          rw [skipWs_cons 91 _ rfl]
          simp only []
          rw [if_neg (by omega : ¬ (91 : Nat) = 110), if_neg (by omega : ¬ (91 : Nat) = 116),
            if_neg (by omega : ¬ (91 : Nat) = 102), if_neg (by omega : ¬ (91 : Nat) = 34),
            if_pos (by trivial)]
          rw [skipWs_cons 93 _ rfl]
          simp only []
          rw [if_pos (by trivial)]
        | cons w tl =>
          have hassoc : stringifyJson (.arr (w :: tl)) ++ rest
              = 91 :: (stringifyElems (w :: tl) ++ 93 :: rest) := by
            show (91 :: (stringifyElems (w :: tl) ++ [93])) ++ rest = _
            simp
          rw [hassoc]
          simp only [parseValue]
          rw [skipWs_cons 91 _ rfl]
          simp only []
          rw [if_neg (by omega : ¬ (91 : Nat) = 110), if_neg (by omega : ¬ (91 : Nat) = 116),
            if_neg (by omega : ¬ (91 : Nat) = 102), if_neg (by omega : ¬ (91 : Nat) = 34),
            if_pos (by trivial)]
          obtain ⟨t, ht⟩ := stringifyElems_cons_eq w tl
          obtain ⟨c2, cs2, hw, hwws, hw93, _⟩ := stringifyJson_head w
          have harg : stringifyElems (w :: tl) ++ 93 :: rest
              = c2 :: (cs2 ++ (t ++ 93 :: rest)) := by
            rw [ht, hw]
            simp
          rw [harg, skipWs_cons c2 _ hwws]
          simp only []
          rw [if_neg hw93, ← harg]
          rw [ihe (w :: tl) rest (by simp) (by simp only [jsonFuel] at hfuel; omega)]
          rfl
      | obj l =>
        cases l with
        | nil =>
          show parseValue (f + 1) ((123 :: ([] ++ [125])) ++ rest) = _
          have : (123 :: (([] : JStr) ++ [125])) ++ rest = 123 :: 125 :: rest := by simp
          rw [this]
          simp only [parseValue]
          rw [skipWs_cons 123 _ rfl]
          simp only []
          rw [if_neg (by omega : ¬ (123 : Nat) = 110), if_neg (by omega : ¬ (123 : Nat) = 116),
            if_neg (by omega : ¬ (123 : Nat) = 102), if_neg (by omega : ¬ (123 : Nat) = 34),
            if_neg (by omega : ¬ (123 : Nat) = 91), if_pos (by trivial)]
          rw [skipWs_cons 125 _ rfl]
          simp only []
          rw [if_pos (by trivial)]
        | cons kv tl =>
          have hassoc : stringifyJson (.obj (kv :: tl)) ++ rest
              = 123 :: (stringifyFields (kv :: tl) ++ 125 :: rest) := by
            show (123 :: (stringifyFields (kv :: tl) ++ [125])) ++ rest = _
            simp
          rw [hassoc]
          simp only [parseValue]
          rw [skipWs_cons 123 _ rfl]
          simp only []
          rw [if_neg (by omega : ¬ (123 : Nat) = 110), if_neg (by omega : ¬ (123 : Nat) = 116),
            if_neg (by omega : ¬ (123 : Nat) = 102), if_neg (by omega : ¬ (123 : Nat) = 34),
            if_neg (by omega : ¬ (123 : Nat) = 91), if_pos (by trivial)]
          obtain ⟨cs2, hcs2⟩ := stringifyFields_head kv tl
          have harg : stringifyFields (kv :: tl) ++ 125 :: rest
              = 34 :: (cs2 ++ 125 :: rest) := by
            rw [hcs2]
            simp
          rw [harg, skipWs_cons 34 _ rfl]
          simp only []
          rw [if_neg (by omega : ¬ (34 : Nat) = 125), ← harg]
          rw [ihf (kv :: tl) rest (by simp) (by simp only [jsonFuel] at hfuel; omega)]
          rfl
    · intro l rest hne hfuel
      obtain ⟨v, tl, rfl⟩ := List.exists_cons_of_ne_nil hne
      cases tl with
      | nil =>
        show parseElems (f + 1) (stringifyJson v ++ 93 :: rest) = some ([v], rest)
        simp only [parseElems]
        rw [ihv v (93 :: rest)
          (by simp only [elemsFuel] at hfuel; omega)
          (notNumCont_cons 93 rest rfl (by omega))]
        simp only []
        rw [skipWs_cons 93 _ rfl]
        simp only []
        rw [if_neg (by omega : ¬ (93 : Nat) = 44), if_pos (by trivial)]
      | cons w tl' =>
        have hassoc : stringifyElems (v :: w :: tl') ++ 93 :: rest
            = stringifyJson v ++ 44 :: (stringifyElems (w :: tl') ++ 93 :: rest) := by
          show (stringifyJson v ++ 44 :: stringifyElems (w :: tl')) ++ 93 :: rest = _
          simp
        rw [hassoc]
        simp only [parseElems]
        rw [ihv v _
          (by simp only [elemsFuel] at hfuel; omega)
          (notNumCont_cons 44 _ rfl (by omega))]
        simp only []
        rw [skipWs_cons 44 _ rfl]
        simp only []
        rw [if_pos (by trivial)]
        rw [ihe (w :: tl') rest (by simp) (by simp only [elemsFuel] at hfuel ⊢; omega)]
        rfl
    · intro l rest hne hfuel
      obtain ⟨kv, tl, rfl⟩ := List.exists_cons_of_ne_nil hne
      obtain ⟨k, v⟩ := kv
      cases tl with
      | nil =>
        have hassoc : stringifyFields [(k, v)] ++ 125 :: rest
            = 34 :: ((k.map escapeChar).flatten ++ 34 :: (58 :: (stringifyJson v ++ 125 :: rest))) := by
          show (stringifyStr k ++ 58 :: stringifyJson v) ++ 125 :: rest = _
          simp [stringifyStr]
        rw [hassoc]
        simp only [parseFields]
        rw [skipWs_cons 34 _ rfl]
        simp only []
        rw [if_pos (by trivial)]
        rw [parseStringBody_escape k (58 :: (stringifyJson v ++ 125 :: rest))]
        simp only []
        rw [skipWs_cons 58 _ rfl]
        simp only []
        rw [if_pos (by trivial)]
        rw [ihv v (125 :: rest)
          (by simp only [fieldsFuel] at hfuel; omega)
          (notNumCont_cons 125 rest rfl (by omega))]
        simp only []
        rw [skipWs_cons 125 _ rfl]
        simp only []
        rw [if_neg (by omega : ¬ (125 : Nat) = 44), if_pos (by trivial)]
      | cons w tl' =>
        have hassoc : stringifyFields ((k, v) :: w :: tl') ++ 125 :: rest
            = 34 :: ((k.map escapeChar).flatten ++ 34 :: (58 :: (stringifyJson v
              ++ 44 :: (stringifyFields (w :: tl') ++ 125 :: rest)))) := by
          show (stringifyStr k ++ 58 :: stringifyJson v ++ 44 :: stringifyFields (w :: tl'))
              ++ 125 :: rest = _
          simp [stringifyStr]
        rw [hassoc]
        simp only [parseFields]
        rw [skipWs_cons 34 _ rfl]
        simp only []
        rw [if_pos (by trivial)]
        rw [parseStringBody_escape k (58 :: (stringifyJson v
          ++ 44 :: (stringifyFields (w :: tl') ++ 125 :: rest)))]
        simp only []
        rw [skipWs_cons 58 _ rfl]
        simp only []
        rw [if_pos (by trivial)]
        rw [ihv v _
          (by simp only [fieldsFuel] at hfuel; omega)
          (notNumCont_cons 44 _ rfl (by omega))]
        simp only []
        rw [skipWs_cons 44 _ rfl]
        simp only []
        rw [if_pos (by trivial)]
        rw [ihf (w :: tl') rest (by simp) (by simp only [fieldsFuel] at hfuel ⊢; omega)]
        rfl

/-- `JSON.parse` inverts `JSON.stringify` on every value. -/
theorem parseJson_stringifyJson (v : Json) :
    parseJson (stringifyJson v) = some v := by
  unfold parseJson
  have hfuel : jsonFuel v ≤ (stringifyJson v).length + 1 := by
    have := jsonFuel_le_length v
    omega
  have h := (parse_stringify ((stringifyJson v).length + 1)).1 v [] hfuel trivial
  rw [List.append_nil] at h
  rw [h]
  rfl

/-- UTF-8 bytes of a code point are bytes. -/
theorem utf8EncodeChar_lt (c : Nat) (h : c < 1114112) :
    ∀ b ∈ utf8EncodeChar c, b < 256 := by
  intro b hb
  unfold utf8EncodeChar at hb
  split_ifs at hb with h1 h2 h3
  · simp at hb
    omega
  · simp at hb
    rcases hb with hb | hb <;> omega
  · simp at hb
    rcases hb with hb | hb | hb <;> omega
  · simp at hb
    rcases hb with hb | hb | hb | hb <;> omega

/-- Every byte of the UTF-8 encoding of a valid string is a byte. -/
theorem utf8Encode_lt (s : JStr) (hs : StrValid s) : ∀ b ∈ utf8Encode s, b < 256 := by
  intro b hb
  unfold utf8Encode at hb
  rw [List.mem_flatten] at hb
  rcases hb with ⟨l, hl, hbl⟩
  rw [List.mem_map] at hl
  rcases hl with ⟨c, hc, rfl⟩
  exact utf8EncodeChar_lt c (hs c hc) b hbl

/-- Unreserved characters are ASCII and not the percent sign. -/
theorem isUnreserved_facts (c : Nat) (h : isUnreserved c = true) :
    ¬ c = 37 ∧ c < 128 := by
  unfold isUnreserved at h
  simp only [Bool.or_eq_true, Bool.and_eq_true, decide_eq_true_eq] at h
  omega

/-- A character other than `%` passes `collapsePct` unchanged. -/
theorem collapsePct_cons_ne (c : Nat) (rest : JStr) (h : ¬ c = 37) :
    collapsePct (c :: rest) = c :: collapsePct rest := by
  match rest with
  | [] => rfl
  | [d] => rfl
  | h1 :: h2 :: rest2 =>
    show collapsePct (c :: h1 :: h2 :: rest2) = _
    rw [collapsePct.eq_def]
    simp only []
    rw [if_neg (by intro hand; exact h hand.1)]

/-- `hexUpper` produces an uppercase hexadecimal digit. -/
theorem isHexUpperDigit_hexUpper (d : Nat) (h : d < 16) :
    isHexUpperDigit (hexUpper d) = true := by
  unfold isHexUpperDigit hexUpper
  split_ifs <;> simp <;> omega

/-- `hexUpperVal` inverts `hexUpper`. -/
theorem hexUpperVal_hexUpper (d : Nat) (h : d < 16) : hexUpperVal (hexUpper d) = d := by
  unfold hexUpperVal hexUpper
  split_ifs <;> omega

/-- `collapsePct` turns a run of `%XX` escapes back into its bytes. -/
theorem collapsePct_pctBytes (bs : List Nat) (hbs : ∀ b ∈ bs, b < 256) (rest : JStr) :
    collapsePct ((bs.map pctByte).flatten ++ rest) = bs ++ collapsePct rest := by
  induction bs with
  | nil => simp
  | cons b bs' ih =>
    have hb : b < 256 := hbs b (by simp)
    simp only [List.map_cons, List.flatten_cons, pctByte, List.cons_append, List.append_assoc]
    rw [collapsePct.eq_def]
    simp only []
    rw [if_pos (by
      refine ⟨trivial, ?_⟩
      rw [isHexUpperDigit_hexUpper (b / 16) (by omega),
        isHexUpperDigit_hexUpper (b % 16) (by omega)]
      rfl)]
    rw [hexUpperVal_hexUpper (b / 16) (by omega), hexUpperVal_hexUpper (b % 16) (by omega)]
    rw [List.nil_append, ih (fun x hx => hbs x (by simp [hx]))]
    congr 1
    omega

/-- The percent-encode-then-collapse of `handleShare` is exactly UTF-8
encoding. -/
theorem collapsePct_encodeURIComponent (s : JStr) (hs : StrValid s) :
    collapsePct (encodeURIComponentM s) = utf8Encode s := by
  induction s with
  | nil => rfl
  | cons c cs ih =>
    have hcs : StrValid cs := fun x hx => hs x (by simp [hx])
    have hc : c < 1114112 := hs c (by simp)
    show collapsePct ((if isUnreserved c then [c]
        else ((utf8EncodeChar c).map pctByte).flatten) ++ encodeURIComponentM cs)
      = utf8EncodeChar c ++ utf8Encode cs
    by_cases hu : isUnreserved c = true
    · rw [if_pos hu]
      obtain ⟨h37, h128⟩ := isUnreserved_facts c hu
      rw [show ([c] ++ encodeURIComponentM cs) = c :: encodeURIComponentM cs from rfl]
      rw [collapsePct_cons_ne c _ h37, ih hcs]
      rw [show utf8EncodeChar c = [c] by unfold utf8EncodeChar; rw [if_pos h128]]
      rfl
    · rw [if_neg hu]
      rw [collapsePct_pctBytes (utf8EncodeChar c) (utf8EncodeChar_lt c hc) _, ih hcs]

/-- `b64Val` inverts `b64Char` on 6-bit values. -/
theorem b64Val_b64Char (x : Nat) (h : x < 64) : b64Val (b64Char x) = some x := by
  unfold b64Val b64Char
  split_ifs <;> simp_all <;> omega

/-- `b64Char` never produces the padding character. -/
theorem b64Char_ne_61 (x : Nat) (h : x < 64) : ¬ b64Char x = 61 := by
  unfold b64Char
  split_ifs <;> omega

/-- `atob` inverts `btoa` on byte strings. -/
theorem atob_btoa : ∀ (l : List Nat), (∀ b ∈ l, b < 256) → atob (btoa l) = some l
  | [], _ => rfl
  | [b1], h => by
    have hb1 : b1 < 256 := h b1 (by simp)
    show atob [b64Char (b1 / 4), b64Char (b1 % 4 * 16), 61, 61] = some [b1]
    rw [atob.eq_def]
    simp only []
    rw [b64Val_b64Char (b1 / 4) (by omega), b64Val_b64Char (b1 % 4 * 16) (by omega)]
    simp only []
    rw [if_pos (by simp)]
    simp only [Option.some.injEq, List.cons.injEq, and_true]
    omega
  | [b1, b2], h => by
    have hb1 : b1 < 256 := h b1 (by simp)
    have hb2 : b2 < 256 := h b2 (by simp)
    show atob [b64Char (b1 / 4), b64Char (b1 % 4 * 16 + b2 / 16), b64Char (b2 % 16 * 4), 61]
      = some [b1, b2]
    rw [atob.eq_def]
    simp only []
    rw [b64Val_b64Char (b1 / 4) (by omega), b64Val_b64Char (b1 % 4 * 16 + b2 / 16) (by omega)]
    simp only []
    rw [if_neg (fun hand => b64Char_ne_61 (b2 % 16 * 4) (by omega) hand.1)]
    rw [if_pos (by simp)]
    rw [b64Val_b64Char (b2 % 16 * 4) (by omega)]
    simp only [Option.some.injEq, List.cons.injEq, and_true]
    refine ⟨by omega, by omega⟩
  | b1 :: b2 :: b3 :: rest, h => by
    have hb1 : b1 < 256 := h b1 (by simp)
    have hb2 : b2 < 256 := h b2 (by simp)
    have hb3 : b3 < 256 := h b3 (by simp)
    have hrest : ∀ b ∈ rest, b < 256 := fun b hb => h b (by simp [hb])
    show atob (b64Char (b1 / 4) :: b64Char (b1 % 4 * 16 + b2 / 16)
        :: b64Char (b2 % 16 * 4 + b3 / 64) :: b64Char (b3 % 64) :: btoa rest)
      = some (b1 :: b2 :: b3 :: rest)
    rw [atob.eq_def]
    simp only []
    rw [b64Val_b64Char (b1 / 4) (by omega), b64Val_b64Char (b1 % 4 * 16 + b2 / 16) (by omega)]
    simp only []
    rw [if_neg (fun hand => b64Char_ne_61 (b2 % 16 * 4 + b3 / 64) (by omega) hand.1)]
    rw [if_neg (fun hand => b64Char_ne_61 (b3 % 64) (by omega) hand.1)]
    rw [b64Val_b64Char (b2 % 16 * 4 + b3 / 64) (by omega), b64Val_b64Char (b3 % 64) (by omega)]
    simp only []
    rw [atob_btoa rest hrest]
    simp only [Option.map_some', Option.some.injEq, List.cons.injEq]
    refine ⟨by omega, by omega, by omega, trivial⟩

/-- Re-escaping the bytes and tokenizing yields exactly those bytes as
escape tokens. -/
theorem pctTokens_hexifyAll (bs : List Nat) (hbs : ∀ b ∈ bs, b < 256) :
    pctTokens (hexifyAll bs) = some (bs.map .inl) := by
  induction bs with
  | nil => rfl
  | cons b bs' ih =>
    have hb : b < 256 := hbs b (by simp)
    show pctTokens (37 :: hexLower (b / 16) :: hexLower (b % 16) :: hexifyAll bs') = _
    rw [pctTokens.eq_def]
    simp only []
    rw [hexVal_hexLower (b / 16) (by omega), hexVal_hexLower (b % 16) (by omega)]
    simp only []
    rw [ih (fun x hx => hbs x (by simp [hx]))]
    simp only [Option.map_some', List.map_cons, Option.some.injEq, List.cons.injEq]
    refine ⟨by rw [show b / 16 * 16 + b % 16 = b by omega], trivial⟩

/-- Decoding the escape tokens of a UTF-8 encoding restores the
string. -/
theorem decodeTokens_utf8 (s : JStr) (hs : StrValid s) :
    decodeTokens ((utf8Encode s).map .inl) = some s := by
  induction s with
  | nil => rfl
  | cons c cs ih =>
    have hc : c < 1114112 := hs c (by simp)
    have hcs : StrValid cs := fun x hx => hs x (by simp [hx])
    show decodeTokens (((utf8EncodeChar c ++ utf8Encode cs).map Sum.inl)) = _
    rw [List.map_append]
    by_cases h1 : c < 128
    · rw [show utf8EncodeChar c = [c] by unfold utf8EncodeChar; rw [if_pos h1]]
      show decodeTokens (.inl c :: (utf8Encode cs).map .inl) = _
      rw [decodeTokens.eq_def]
      simp only []
      rw [if_pos h1, ih hcs]
      rfl
    · by_cases h2 : c < 2048
      · rw [show utf8EncodeChar c = [192 + c / 64, 128 + c % 64] by
          unfold utf8EncodeChar
          rw [if_neg h1, if_pos h2]]
        show decodeTokens (.inl (192 + c / 64) :: .inl (128 + c % 64)
            :: (utf8Encode cs).map .inl) = _
        rw [decodeTokens.eq_def]
        simp only []
        rw [if_neg (by omega), if_neg (by omega), if_pos (by omega)]
        rw [decodeCont1.eq_def]
        simp only []
        rw [show isCont (128 + c % 64) = true by unfold isCont; simp; omega]
        simp only [if_true]
        rw [ih hcs]
        simp only [Option.map_some', Option.some.injEq, List.cons.injEq]
        refine ⟨by omega, trivial⟩
      · by_cases h3 : c < 65536
        · rw [show utf8EncodeChar c = [224 + c / 4096, 128 + c / 64 % 64, 128 + c % 64] by
            unfold utf8EncodeChar
            rw [if_neg h1, if_neg h2, if_pos h3]]
          show decodeTokens (.inl (224 + c / 4096) :: .inl (128 + c / 64 % 64)
              :: .inl (128 + c % 64) :: (utf8Encode cs).map .inl) = _
          rw [decodeTokens.eq_def]
          simp only []
          rw [if_neg (by omega), if_neg (by omega), if_neg (by omega), if_pos (by omega)]
          rw [decodeCont2.eq_def]
          simp only []
          rw [show (isCont (128 + c / 64 % 64) && isCont (128 + c % 64)) = true by
            unfold isCont
            simp only [Bool.and_eq_true, decide_eq_true_eq]
            omega]
          simp only [if_true]
          rw [ih hcs]
          simp only [Option.map_some', Option.some.injEq, List.cons.injEq]
          refine ⟨by omega, trivial⟩
        · rw [show utf8EncodeChar c
              = [240 + c / 262144, 128 + c / 4096 % 64, 128 + c / 64 % 64, 128 + c % 64] by
            unfold utf8EncodeChar
            rw [if_neg h1, if_neg h2, if_neg h3]]
          show decodeTokens (.inl (240 + c / 262144) :: .inl (128 + c / 4096 % 64)
              :: .inl (128 + c / 64 % 64) :: .inl (128 + c % 64) :: (utf8Encode cs).map .inl) = _
          rw [decodeTokens.eq_def]
          simp only []
          rw [if_neg (by omega), if_neg (by omega), if_neg (by omega), if_neg (by omega),
            if_pos (by omega)]
          rw [decodeCont3.eq_def]
          simp only []
          rw [show (isCont (128 + c / 4096 % 64) && isCont (128 + c / 64 % 64)
              && isCont (128 + c % 64)) = true by
            unfold isCont
            simp only [Bool.and_eq_true, decide_eq_true_eq]
            omega]
          simp only [if_true]
          rw [ih hcs]
          simp only [Option.map_some', Option.some.injEq, List.cons.injEq]
          refine ⟨by omega, trivial⟩

/-- C1 counterexample: importing a copy of record `"a"` over a local
collection holding its own copy of `"a"` keeps the incoming copy's field
values and discards the local copy — the opposite of the claimed policy,
whose result (`specMergeDropIncoming`) retains the local copy. -/
theorem C1_counterexample :
    importSharedData [showIncomingA] [showLocalA] = [showIncomingA]
    ∧ specMergeDropIncoming [showIncomingA] [showLocalA] = [showLocalA]
    ∧ showIncomingA.id = showLocalA.id
    ∧ showIncomingA ≠ showLocalA := by
  refine ⟨by decide, by decide, by decide, by decide⟩

/-- C1 (amended): on import, each existing record whose identifier appears
in the incoming set is dropped from the local collection; the result is
the whole incoming set prepended to the remaining local records, so on a
duplicate identifier the incoming copy's field values are retained. The
set-based merge (`importSharedData`) and the find-based merge
(`importData`) agree. -/
theorem C1_merge_incoming_wins :
    ∀ (inc prev : List TVShowSeason),
      importSharedData inc prev = importData inc prev
    ∧ importSharedData inc prev
        = inc ++ prev.filter (fun p => decide (p.id ∉ ids inc))
    ∧ ∀ x, x ∈ importSharedData inc prev
        ↔ (x ∈ inc ∨ (x ∈ prev ∧ x.id ∉ ids inc)) := by
  intro inc prev
  have hpred : ∀ p : TVShowSeason,
      (decide (p.id ∉ inc.map (fun s => s.id)))
        = (inc.find? (fun c => decide (c.id = p.id))).isNone := by
    intro p
    by_cases h : p.id ∈ inc.map (fun s => s.id)
    · rw [decide_eq_false (not_not_intro h)]
      rcases List.mem_map.mp h with ⟨c, hc, hcid⟩
      cases hfind : inc.find? (fun c => decide (c.id = p.id)) with
      | none =>
        have := List.find?_eq_none.mp hfind c hc
        simp only [decide_eq_true_eq] at this
        exact absurd hcid this
      | some _ => simp
    · rw [decide_eq_true h]
      have hnone : inc.find? (fun c => decide (c.id = p.id)) = none := by
        apply List.find?_eq_none.mpr
        intro c hc
        simp only [decide_eq_true_eq]
        intro hcid
        exact h (List.mem_map.mpr ⟨c, hc, hcid⟩)
      rw [hnone]
      rfl
  refine ⟨?_, ?_, ?_⟩
  · show inc ++ prev.filter (fun p => decide (p.id ∉ inc.map (fun s => s.id)))
      = inc ++ prev.filter (fun p => (inc.find? (fun c => decide (c.id = p.id))).isNone)
    congr 1
    exact List.filter_congr (fun p _ => hpred p)
  · rfl
  · intro x
    show x ∈ inc ++ prev.filter (fun p => decide (p.id ∉ inc.map (fun s => s.id))) ↔ _
    simp only [List.mem_append, List.mem_filter, decide_eq_true_eq, ids]

/-- C2 counterexample: the imported set `[copy of "a", new "b"]` has
exactly one identifier already present (`"a"`) and one new (`"b"`), yet
the first element of the merged collection is the incoming copy of the
already-present record, not the record with the new identifier. -/
theorem C2_counterexample :
    importSharedData [showIncomingA, showNewB] [showLocalA]
      = [showIncomingA, showNewB]
    ∧ (importSharedData [showIncomingA, showNewB] [showLocalA]).head?
      = some showIncomingA
    ∧ showIncomingA.id ∈ ids [showLocalA]
    ∧ showNewB.id ∉ ids [showLocalA]
    ∧ showIncomingA ≠ showNewB := by
  refine ⟨by decide, by decide, by decide, by decide, by decide⟩

/-- C2 (amended): for a collection with pairwise-distinct identifiers and
every imported pair `[x, y]` holding exactly one already-present
identifier and one new one — in either order — the merged collection has
size (original + 1), its first element is the first record `x` of the
imported set, and the record with the new identifier ends up first
exactly when it is the one that precedes the duplicate in the import. -/
theorem C2_merge_size_and_head :
    ∀ (prev : List TVShowSeason) (x y : TVShowSeason),
      (ids prev).Nodup →
      (x.id ∈ ids prev ∧ y.id ∉ ids prev) ∨ (x.id ∉ ids prev ∧ y.id ∈ ids prev) →
      (importSharedData [x, y] prev).length = prev.length + 1
      ∧ (importSharedData [x, y] prev).head? = some x
      ∧ ∀ n, n ∈ [x, y] → n.id ∉ ids prev →
          ((importSharedData [x, y] prev).head? = some n ↔ n = x) := by
  intro prev x y hnd hone
  have hpos : 0 < prev.length := by
    cases prev with
    | nil => rcases hone with ⟨ha, _⟩ | ⟨_, ha⟩ <;> simp [ids] at ha
    | cons _ _ => simp
  refine ⟨?_, rfl, ?_⟩
  · unfold importSharedData
    simp only [List.length_append, List.length_cons, List.length_nil, List.map_cons,
      List.map_nil]
    rcases hone with ⟨ha, hb⟩ | ⟨ha, hb⟩
    · have := length_filter_two_ids prev x.id y.id hnd ha hb
      simp only [ids] at this
      rw [this]
      omega
    · have hswap : prev.filter (fun p => decide (p.id ∉ [x.id, y.id]))
          = prev.filter (fun p => decide (p.id ∉ [y.id, x.id])) := by
        refine List.filter_congr (fun p _ => ?_)
        refine decide_eq_decide.mpr ?_
        simp only [List.mem_cons, List.not_mem_nil, or_false]
        tauto
      have := length_filter_two_ids prev y.id x.id hnd hb ha
      simp only [ids] at this
      rw [hswap, this]
      omega
  · intro n _ _
    show some x = some n ↔ n = x
    simp only [Option.some.injEq]
    exact eq_comm

/-- C2 witness: the amended size/head/order property at a concrete
collection and import pair with the new record first. -/
theorem C2_merge_size_and_head_witness :
    (importSharedData [showNewB, showIncomingA] [showLocalA]).length
      = [showLocalA].length + 1
    ∧ (importSharedData [showNewB, showIncomingA] [showLocalA]).head?
      = some showNewB
    ∧ ((importSharedData [showNewB, showIncomingA] [showLocalA]).head?
        = some showNewB ↔ showNewB = showNewB) :=
  ⟨(C2_merge_size_and_head [showLocalA] showNewB showIncomingA (by decide)
      (Or.inr ⟨by decide, by decide⟩)).1,
   (C2_merge_size_and_head [showLocalA] showNewB showIncomingA (by decide)
      (Or.inr ⟨by decide, by decide⟩)).2.1,
   (C2_merge_size_and_head [showLocalA] showNewB showIncomingA (by decide)
      (Or.inr ⟨by decide, by decide⟩)).2.2 showNewB (by decide) (by decide)⟩

/-- C3: for every collection whose serialized JSON text consists of
code points, the share-link encoding (`JSON.stringify`,
`encodeURIComponent`, `%XX`-collapse, `btoa`) decoded by the reader
(`atob`, byte re-escaping, `decodeURIComponent`, `JSON.parse`) yields
exactly the JSON array value that was encoded, and it passes the
reader's `Array.isArray` check. -/
theorem C3_share_link_roundtrip :
    ∀ shows : List TVShowSeason, StrValid (stringifyJson (showsJson shows)) →
      loadSharedData (handleShare shows) = some (showsJson shows)
      ∧ isArrayJson (showsJson shows) = true := by
  intro shows hvalid
  constructor
  · unfold handleShare loadSharedData
    rw [collapsePct_encodeURIComponent _ hvalid]
    rw [atob_btoa _ (utf8Encode_lt _ hvalid)]
    unfold decodeURIComponentM
    rw [Option.some_bind]
    rw [pctTokens_hexifyAll _ (utf8Encode_lt _ hvalid)]
    rw [Option.some_bind]
    rw [decodeTokens_utf8 _ hvalid]
    rw [Option.some_bind]
    exact parseJson_stringifyJson _
  · rfl

set_option maxRecDepth 100000 in
set_option maxHeartbeats 4000000 in
/-- C3 witness: the round trip at a concrete one-record collection with
rating 4.8. -/
theorem C3_share_link_roundtrip_witness :
    loadSharedData (handleShare [sampleShareShow]) = some (showsJson [sampleShareShow])
    ∧ isArrayJson (showsJson [sampleShareShow]) = true :=
  C3_share_link_roundtrip [sampleShareShow] (by unfold StrValid; decide)

/-- C4: the claim is the code's intent, but `loadInitialData` calls
`JSON.parse(saved)` outside any `try` (`App.tsx` line 108): a malformed
stored value is an uncaught exception that skips the static-file and
default sources even when they are available, while the variant
`initializeData` (`part_003`), whose local parse is inside
`try`/`catch`, falls back as the claim describes. -/
theorem C4_uncaught_parse_failure :
    loadInitialData none (some [123]) .notOk = .error ()
    ∧ loadInitialData none (some [123]) (.ok [91, 93]) = .error ()
    ∧ initData (some [123]) (.ok [91, 93]) = .fromServer (.arr [])
    ∧ initData (some [123]) .notOk = .fromDefaults
    ∧ parseJson [123] = none := by
  exact ⟨rfl, rfl, rfl, rfl, rfl⟩

/-- C7 counterexample: the file `"5"` is valid JSON but not an array —
the import ignores it silently, with no user-facing message; the file
`"[5]"` is a valid JSON array that is not an array of season records —
the import accepts it and changes the collection; and the file
`"[null]"` parses to an array, yet over a nonempty collection the merge
callback evaluates `null.id`, throws a `TypeError`, and the merge never
commits. -/
theorem C7_counterexample :
    importDataFile [53] [sampleShowJ] true = .ignored [sampleShowJ]
    ∧ importDataFile [91, 53, 93] [sampleShowJ] true
      = .merged [Json.num 5 0, sampleShowJ]
    ∧ ([Json.num 5 0, sampleShowJ] : List Json).length ≠ [sampleShowJ].length
    ∧ importDataFile [91, 110, 117, 108, 108, 93] [sampleShowJ] true
      = .mergeTypeError [sampleShowJ] := by
  refine ⟨rfl, rfl, by simp, rfl⟩

/-- C7 (amended): content that fails JSON parsing is rejected with the
`'Invalid JSON.'` alert and the collection is unchanged; valid JSON
that is not an array is silently ignored (collection unchanged, no
message); a valid JSON array is accepted without validating its
elements: declined, the collection is unchanged; confirmed, the merge
commits whenever its filter callback evaluates without error, while a
`TypeError` raised there (a `null` record's `id` access) aborts the
update and leaves the collection unchanged. -/
theorem C7_import_error_handling :
    ∀ (raw : JStr) (prev : List Json),
      (∀ confirmOk : Bool, parseJson raw = none →
        importDataFile raw prev confirmOk = .parseAlert prev)
    ∧ (∀ (confirmOk : Bool) (j : Json), parseJson raw = some j → isArrayJson j = false →
        importDataFile raw prev confirmOk = .ignored prev)
    ∧ (∀ content : List Json, parseJson raw = some (.arr content) →
        importDataFile raw prev false = .declined prev
        ∧ (∀ newList : List Json, mergeJ content prev = .ok newList →
            importDataFile raw prev true = .merged newList)
        ∧ (mergeJ content prev = .error () →
            importDataFile raw prev true = .mergeTypeError prev)) := by
  intro raw prev
  refine ⟨?_, ?_, ?_⟩
  · intro confirmOk h
    unfold importDataFile
    rw [h]
  · intro confirmOk j hj hne
    unfold importDataFile
    rw [hj]
    cases j with
    | arr l => simp [isArrayJson] at hne
    | null => rfl
    | bool b => rfl
    | num m e => rfl
    | str s => rfl
    | obj l => rfl
  · intro content hc
    refine ⟨?_, ?_, ?_⟩
    · unfold importDataFile
      rw [hc]
      rfl
    · intro newList hm
      unfold importDataFile
      rw [hc]
      simp only []
      rw [hm, if_pos trivial]
    · intro hm
      unfold importDataFile
      rw [hc]
      simp only []
      rw [hm, if_pos trivial]

/-- C7 witness: the four behaviors at concrete files `"\x7b"`, `"5"`,
`"[5]"` and `"[null]"`. -/
theorem C7_import_error_handling_witness :
    importDataFile [123] [] true = .parseAlert []
    ∧ importDataFile [53] [] true = .ignored []
    ∧ importDataFile [91, 53, 93] [] true = .merged [Json.num 5 0]
    ∧ importDataFile [91, 110, 117, 108, 108, 93] [Json.obj []] true
      = .mergeTypeError [Json.obj []] :=
  ⟨(C7_import_error_handling [123] []).1 true rfl,
   (C7_import_error_handling [53] []).2.1 true (.num 5 0) rfl rfl,
   ((C7_import_error_handling [91, 53, 93] []).2.2 [.num 5 0] rfl).2.1
     [Json.num 5 0] rfl,
   ((C7_import_error_handling [91, 110, 117, 108, 108, 93] [Json.obj []]).2.2
     [.null] rfl).2.2 rfl⟩

/-- C5: with the empty query (and year filter `'All'`), the filter stage
of `filteredShows` returns every element of the collection in its
original relative order, before any sort is applied. -/
theorem C5_empty_query_keeps_all :
    ∀ shows : List TVShowSeason, filteredShows shows [] litAll = shows := by
  intro shows
  unfold filteredShows
  simp only [toLowerCase, List.map_nil]
  apply List.filter_eq_self.mpr
  intro s _
  unfold filterPred
  have h1 : includes (toLowerCase s.title) [] = true := by
    simp [includes, List.nil_infix]
  simp [h1]

/-- C6: sorting with the `rating-desc` comparator yields a permutation of
the input that is pairwise ordered by descending rating (so any record
with the strictly higher rating is placed before one with a lower
rating), and the comparator induces a total, transitive order consistent
with numeric comparison of the ratings. -/
theorem C6_rating_desc_sort :
    ∀ l : List TVShowSeason,
      (sortRatingDesc l).Perm l
    ∧ List.Pairwise (fun a b => b.userRating.val ≤ a.userRating.val) (sortRatingDesc l)
    ∧ (∀ a b : TVShowSeason,
        (cmpRatingDesc a b ≤ 0 ↔ b.userRating.val ≤ a.userRating.val))
    ∧ (∀ a b : TVShowSeason, cmpRatingDesc a b ≤ 0 ∨ cmpRatingDesc b a ≤ 0)
    ∧ (∀ a b c : TVShowSeason,
        cmpRatingDesc a b ≤ 0 → cmpRatingDesc b c ≤ 0 → cmpRatingDesc a c ≤ 0) := by
  intro l
  have hiff : ∀ a b : TVShowSeason,
      cmpRatingDesc a b ≤ 0 ↔ b.userRating.val ≤ a.userRating.val := by
    intro a b
    unfold cmpRatingDesc
    constructor
    · intro h; linarith
    · intro h; linarith
  refine ⟨List.mergeSort_perm l _, ?_, hiff, ?_, ?_⟩
  · have hs := @List.sorted_mergeSort TVShowSeason
      (fun a b : TVShowSeason => decide (cmpRatingDesc a b ≤ 0))
      (fun a b c hab hbc => by
        simp only [decide_eq_true_eq] at *
        exact (hiff a c).mpr (le_trans ((hiff b c).mp hbc) ((hiff a b).mp hab)))
      (fun a b => by
        simp only [Bool.or_eq_true, decide_eq_true_eq]
        rcases le_total (b.userRating.val) (a.userRating.val) with h | h
        · exact Or.inl ((hiff a b).mpr h)
        · exact Or.inr ((hiff b a).mpr h)) l
    exact hs.imp (fun {a b} h => (hiff a b).mp (by simpa using h))
  · intro a b
    rcases le_total (b.userRating.val) (a.userRating.val) with h | h
    · exact Or.inl ((hiff a b).mpr h)
    · exact Or.inr ((hiff b a).mpr h)
  · intro a b c hab hbc
    exact (hiff a c).mpr (le_trans ((hiff b c).mp hbc) ((hiff a b).mp hab))

/-- Helper: the `totalHours` fold with a general accumulator. -/
theorem totalHours_foldl (shows : List TVShowSeason) :
    ∀ acc : ℚ,
      shows.foldl
        (fun acc s =>
          if s.status = .completed ∨ s.status = .watching then
            acc + numOrZero s.episodeCount * numOrZero s.avgEpisodeLength
          else acc)
        acc
      = acc + ((shows.filter
          (fun s => decide (s.status = .completed ∨ s.status = .watching))).map
            (fun s => numOrZero s.episodeCount * numOrZero s.avgEpisodeLength)).sum := by
  induction shows with
  | nil => intro acc; simp
  | cons s rest ih =>
    intro acc
    by_cases h : s.status = .completed ∨ s.status = .watching
    · rw [List.foldl_cons, if_pos h, ih, List.filter_cons,
        if_pos (decide_eq_true h), List.map_cons, List.sum_cons]
      ring
    · rw [List.foldl_cons, if_neg h, ih, List.filter_cons,
        if_neg (by simpa using h)]

/-- C10: the hours-watched aggregate equals the sum of
`episodeCount * avgEpisodeLength` (absent fields contributing 0) over
exactly the records whose status is Completed or Watching, divided
by 60; Recommended, On Hold and Dropped records contribute nothing. -/
theorem C10_totalHours :
    ∀ shows : List TVShowSeason,
      totalHours shows =
        ((shows.filter
            (fun s => decide (s.status = .completed ∨ s.status = .watching))).map
          (fun s => numOrZero s.episodeCount * numOrZero s.avgEpisodeLength)).sum / 60 := by
  intro shows
  unfold totalHours
  rw [totalHours_foldl shows 0]
  ring

/-- C9 counterexample: starting from the empty collection (trivially of
pairwise-distinct identifiers), importing an external sequence that
itself repeats an identifier yields a collection with a duplicated
identifier, refuting preservation for arbitrary external sequences. -/
theorem C9_counterexample :
    (ids ([] : List TVShowSeason)).Nodup
    ∧ importSharedData [showDupX1, showDupX2] [] = [showDupX1, showDupX2]
    ∧ showDupX1.id = showDupX2.id
    ∧ ¬ (ids (importSharedData [showDupX1, showDupX2] [])).Nodup := by
  refine ⟨by decide, by decide, by decide, by decide⟩

/-- C9 (amended): identifier uniqueness is preserved by create with a
fresh identifier, by edit preserving the identifier, by delete, and by
import/merge of an external sequence whose own identifiers are pairwise
distinct (an import repeating an identifier internally can break it). -/
theorem C9_uniqueness_preserved :
    ∀ c : List TVShowSeason, (ids c).Nodup →
      (∀ sh : TVShowSeason, sh.id ∉ ids c →
        (ids (handleSaveShowCreate sh c)).Nodup)
    ∧ (∀ (eid : JStr) (sh : TVShowSeason), sh.id = eid →
        (ids (handleSaveShowEdit eid sh c)).Nodup)
    ∧ (∀ i : JStr, (ids (handleDelete i c)).Nodup)
    ∧ (∀ inc : List TVShowSeason, (ids inc).Nodup →
        (ids (importSharedData inc c)).Nodup) := by
  intro c hnd
  refine ⟨?_, ?_, ?_, ?_⟩
  · intro sh hsh
    simpa [ids, handleSaveShowCreate] using ⟨by simpa [ids] using hsh, hnd⟩
  · intro eid sh hsh
    have : ids (handleSaveShowEdit eid sh c) = ids c := by
      unfold ids handleSaveShowEdit
      rw [List.map_map]
      apply List.map_congr_left
      intro s _
      by_cases h : s.id = eid
      · simp [h, hsh]
      · simp [h]
    rw [this]; exact hnd
  · intro i
    unfold ids handleDelete
    exact hnd.sublist ((List.filter_sublist c).map _)
  · intro inc hinc
    unfold importSharedData
    simp only [ids, List.map_append]
    rw [List.nodup_append]
    refine ⟨hinc, ?_, ?_⟩
    · exact hnd.sublist ((List.filter_sublist c).map _)
    · intro x hx hx'
      rcases List.mem_map.mp hx' with ⟨p, hp, hpid⟩
      have := List.mem_filter.mp hp
      have hkeep : p.id ∉ inc.map (fun s => s.id) := by
        simpa using this.2
      exact hkeep (hpid ▸ hx)

/-- C9 witness: the amended preservation properties at a concrete
collection and operations. -/
theorem C9_uniqueness_preserved_witness :
    (ids (handleSaveShowCreate showNewB [showLocalA])).Nodup
    ∧ (ids (importSharedData [showNewB] [showLocalA])).Nodup :=
  ⟨((C9_uniqueness_preserved [showLocalA] (by decide)).1 showNewB (by decide)),
   ((C9_uniqueness_preserved [showLocalA] (by decide)).2.2.2 [showNewB] (by decide))⟩

/-- C8 counterexample: a record with rating 7 (outside `[1.0, 5.0]`) is
reachable through a single import/merge — imports perform no rating
validation. -/
theorem C8_counterexample :
    Reachable [showBadRating] ∧ ¬ (showBadRating.userRating.val ≤ 5) := by
  constructor
  · have h : importSharedData [showBadRating] [] = [showBadRating] := by decide
    exact h ▸ Reachable.imp [showBadRating] Reachable.init
  · norm_num [showBadRating, mkShow, JNum.val]

/-- C8 (amended): a record assembled by the entry form's save carries the
form's rating whenever that rating is nonzero, so a form rating within
the slider's range `[1.0, 5.0]` yields a saved record whose rating is
within `[1.0, 5.0]`; the import path performs no such validation. -/
theorem C8_form_rating_bounded :
    ∀ (formData : FormData) (mintedId : JStr) (now : JNum) (r : JNum)
      (sh : TVShowSeason),
      formData.userRating = some r → 1 ≤ r.val → r.val ≤ 5 →
      handleSave formData mintedId now = some sh →
      1 ≤ sh.userRating.val ∧ sh.userRating.val ≤ 5 := by
  intro formData mintedId now r sh hr h1 h5 hsave
  unfold handleSave at hsave
  by_cases ht : jsOrStr formData.title [] = []
  · rw [if_pos ht] at hsave
    simp at hsave
  · rw [if_neg ht] at hsave
    have hsh := Option.some.inj hsave
    have hrat : sh.userRating = jsOrNum formData.userRating ⟨0, 0⟩ := by
      rw [← hsh]
    rw [hrat, hr]
    have hne : ¬ r.m = 0 := by
      intro h
      have hz : r.val = 0 := (JNum.val_eq_zero_iff r).mpr h
      rw [hz] at h1
      norm_num at h1
    simp only [jsOrNum]
    rw [if_neg hne]
    exact ⟨h1, h5⟩

/-- C8 witness: the bound at a concrete form whose rating slider value
is 3.0. -/
theorem C8_form_rating_bounded_witness :
    1 ≤ sampleSaved.userRating.val ∧ sampleSaved.userRating.val ≤ 5 :=
  C8_form_rating_bounded sampleForm [] ⟨0, 0⟩ ⟨3, 0⟩ sampleSaved rfl
    (by norm_num [JNum.val]) (by norm_num [JNum.val]) (by decide)

end Cinetrack
